import Mathlib

/-!
# Host staging buffer, allocator selector and I/O policy resolver

A shallow embedding of

* `cpp/include/cudf/detail/utilities/host_vector.hpp` (`cudf::detail::host_vector<T>`),
* `cpp/include/cudf/detail/utilities/host_memory.hpp` (`get_host_allocator<T>`),
* `cpp/src/io/utilities/config_utils.cpp` (the three environment policies),

followed by the properties proved about them.

Conventions of the embedding

* `std::size_t` is a natural number below `SIZE_MOD = 2^64`; every product, sum and
  difference the source computes in `size_t` is reduced modulo `SIZE_MOD`.
* `sizeof(T)` is the parameter `sz` (at least 1 for every C++ type).
* A memory resource never fails: `allocate_async` always hands out a fresh region of
  the requested number of bytes, with arbitrary contents (`Heap.junk`).  Resource
  exhaustion is an exception that aborts the calling operation and is not modelled.
* A region is seen as the list of whole `T` objects that fit in it.  An access outside
  the region is undefined behaviour in C++; the embedding drops the access and sets the
  flag `Heap.ub`, after which the state carries no meaning.
* Calls into the memory resource and the stream are recorded in `Heap.log`, newest first;
  `Heap.copied` counts the objects `std::copy` has copied.
* A parameter of type `T const&` is a `Ref`: it is read when the source reads it, and the
  read is undefined behaviour when the region it refers into has been released.
-/

set_option linter.dupNamespace false

namespace cudf.detail

/-! ## `std::size_t` arithmetic -/

/-- Number of values of `std::size_t`, that is `2^64`. -/
def SIZE_MOD : Nat := 18446744073709551616

/-- Product of two `size_t` values. -/
def size_mul (a b : Nat) : Nat := (a * b) % SIZE_MOD

/-- Sum of two `size_t` values. -/
def size_add (a b : Nat) : Nat := (a + b) % SIZE_MOD

/-- Difference of two `size_t` values. -/
def size_sub (a b : Nat) : Nat := (a + SIZE_MOD - b % SIZE_MOD) % SIZE_MOD

/-! ## Memory resource, stream and raw memory -/

/-- One call into a memory resource or a stream. -/
inductive Event where
  | allocate_async (mr : Nat) (bytes : Nat) (stream : Nat) (addr : Nat)
  | deallocate_async (mr : Nat) (addr : Nat) (bytes : Nat) (stream : Nat)
  | synchronize (stream : Nat)
deriving DecidableEq, Repr

/-- A region obtained from a memory resource: its address and the `T` objects in it. -/
structure Region (T : Type) where
  addr : Nat
  cells : List T
deriving DecidableEq

/-- The world outside the buffer: the next address the resources hand out, the contents
memory has when it is handed out, the calls made so far (newest first), whether an
access outside a region has happened, and how many objects `std::copy` has copied. -/
structure Heap (T : Type) where
  next : Nat
  junk : Nat → Nat → T
  log : List Event
  ub : Bool
  copied : Nat

/-- Marks the heap after an access outside a region. -/
def Heap.poison {T : Type} (h : Heap T) : Heap T := { h with ub := true }

/-- The call `mr.allocate_async(bytes, stream)`: a fresh region of `bytes / sz` objects
with arbitrary contents. -/
def allocate_async {T : Type} (sz mr bytes stream : Nat) (h : Heap T) : Region T × Heap T :=
  ({ addr := h.next, cells := (List.range (bytes / sz)).map (h.junk h.next) },
   { h with next := h.next + 1,
            log := Event.allocate_async mr bytes stream h.next :: h.log })

/-- The call `mr.deallocate_async(p, bytes, stream)`. -/
def deallocate_async {T : Type} (mr addr bytes stream : Nat) (h : Heap T) : Heap T :=
  { h with log := Event.deallocate_async mr addr bytes stream :: h.log }

/-- The call `stream.synchronize()`. -/
def synchronize {T : Type} (stream : Nat) (h : Heap T) : Heap T :=
  { h with log := Event.synchronize stream :: h.log }

/-- The call `memset(p + off, 0, bytes)` where `p` points to `cells`: zeroes the
`bytes / sz` objects from `off` on, `none` when they are not all inside the region. -/
def memset {T : Type} [Zero T] (sz : Nat) (cells : List T) (off bytes : Nat) : Option (List T) :=
  let n := bytes / sz
  if off + n ≤ cells.length then
    some (cells.take off ++ List.replicate n 0 ++ cells.drop (off + n))
  else none

/-- The call `memcpy(dst, src, bytes)`: copies the first `bytes / sz` objects, `none` when
either region is too short. -/
def memcpy {T : Type} (sz : Nat) (dst src : List T) (bytes : Nat) : Option (List T) :=
  let n := bytes / sz
  if n ≤ src.length ∧ n ≤ dst.length then some (src.take n ++ dst.drop n) else none

/-- The call `std::copy(src, src + n, dst)`: copies `n` objects and counts them in the
heap, `none` when either region is too short. -/
def copy {T : Type} (dst src : List T) (n : Nat) (h : Heap T) : Option (List T) × Heap T :=
  if n ≤ src.length ∧ n ≤ dst.length then
    (some (src.take n ++ dst.drop n), { h with copied := h.copied + n })
  else (none, h)

/-- The assignment `p[idx] = value`, `none` when `idx` is outside the region. -/
def store {T : Type} (cells : List T) (idx : Nat) (value : T) : Option (List T) :=
  if idx < cells.length then some (cells.set idx value) else none

/-- The address an allocation event hands out. -/
def Event.allocated : Event → Option Nat
  | Event.allocate_async _ _ _ addr => some addr
  | _ => none

/-- The address a deallocation event releases. -/
def Event.released : Event → Option Nat
  | Event.deallocate_async _ addr _ _ => some addr
  | _ => none

/-- How many times a log hands out the region at `a`. -/
def allocations (a : Nat) (log : List Event) : Nat :=
  log.countP (fun e => e.allocated == some a)

/-- How many times a log releases the region at `a`. -/
def deallocations (a : Nat) (log : List Event) : Nat :=
  log.countP (fun e => e.released == some a)

/-- An argument of type `T const&` of a member function of a buffer: a reference to an
object that is no element of that buffer, which reads as `value` at any time, or the
reference `(*this)[idx]` to the object at index `idx` of the region the buffer holds when
the call is made. -/
inductive Ref (T : Type) where
  | object (value : T)
  | element (idx : Nat)

/-- A read through a reference during a member call: `origin` is the region `_data`
pointed to and `log0` the log when the call was made.  A reference into the region reads
the object there; the read is undefined behaviour when there is no such object, or when
the region has been passed to `deallocate_async` since the call was made. -/
def Ref.read {T : Type} (value : Ref T) (origin : Option (Region T)) (log0 : List Event)
    (h : Heap T) : Option T × Heap T :=
  match value with
  | Ref.object x => (some x, h)
  | Ref.element idx =>
    match origin with
    | some d0 =>
      match d0.cells[idx]? with
      | some x =>
        (some x, if deallocations d0.addr log0 < deallocations d0.addr h.log then h.poison else h)
      | none => (none, h.poison)
    | none => (none, h.poison)

/-- Result of a memory access on a region: the new contents, or the old ones and a
poisoned heap when the access was outside the region. -/
def Region.written {T : Type} (r : Region T) (res : Option (List T)) (h : Heap T) :
    Region T × Heap T :=
  match res with
  | some c => ({ r with cells := c }, h)
  | none => (r, h.poison)

/-! ## `host_vector<T>` -/

/-- The data members of `host_vector<T>`.  `_data = none` is the null pointer; the
resource and the stream are handles. -/
structure host_vector (T : Type) where
  _data : Option (Region T)
  _size : Nat
  _capacity : Nat
  _is_device_accessible : Bool
  _mr : Nat
  _stream : Nat
deriving DecidableEq

namespace host_vector

variable {T : Type}

/-- The constructor `host_vector(size, mr, stream)`; `device_accessible` is the value of
`cuda::has_property<..., cuda::mr::device_accessible>` for the type of `mr`. -/
def host_vector [Zero T] (sz : Nat) (size : Nat) (mr : Nat) (device_accessible : Bool)
    (stream : Nat) (h : Heap T) : host_vector T × Heap T :=
  let v : cudf.detail.host_vector T :=
    { _data := none, _size := size, _capacity := size,
      _is_device_accessible := device_accessible, _mr := mr, _stream := stream }
  if v._size ≠ 0 then
    let (d, h1) := allocate_async sz mr (size_mul v._size sz) v._stream h
    let h2 := synchronize v._stream h1
    let (d1, h3) := d.written (memset sz d.cells 0 (size_mul v._size sz)) h2
    ({ v with _data := some d1 }, h3)
  else (v, h)

/-- The move constructor `host_vector(host_vector&& other)`: returns the new object and
`other`.  The member `_is_device_accessible` has no initialiser in the source, so the
new object holds an indeterminate value `indeterminate`. -/
def host_vector_move (other : cudf.detail.host_vector T) (indeterminate : Bool) :
    cudf.detail.host_vector T × cudf.detail.host_vector T :=
  ({ _data := other._data, _size := other._size, _capacity := other._capacity,
     _is_device_accessible := indeterminate, _mr := other._mr, _stream := other._stream },
   { other with _data := none, _size := 0, _capacity := 0 })

/-- The branch `this != &other` of `operator=(host_vector&& other)`, for two distinct
objects: returns `*this` and `other`. -/
def operator_assign (sz : Nat) (this other : cudf.detail.host_vector T) (h : Heap T) :
    cudf.detail.host_vector T × cudf.detail.host_vector T × Heap T :=
  let h1 := match this._data with
    | some d => deallocate_async this._mr d.addr (size_mul this._size sz) this._stream h
    | none => h
  ({ this with _data := other._data, _size := other._size, _capacity := other._capacity,
               _mr := other._mr, _stream := other._stream },
   { other with _data := none, _size := 0, _capacity := 0 }, h1)

/-- The destructor `~host_vector()`. -/
def destroy (sz : Nat) (v : cudf.detail.host_vector T) (h : Heap T) : Heap T :=
  match v._data with
  | some d => deallocate_async v._mr d.addr (size_mul v._size sz) v._stream h
  | none => h

/-- The member `resize(new_size)`. -/
def resize [Zero T] (sz : Nat) (new_size : Nat) (v : cudf.detail.host_vector T) (h : Heap T) :
    cudf.detail.host_vector T × Heap T :=
  let (v1, h1) :=
    if new_size > v._capacity then
      let new_capacity := max (size_mul v._capacity 2) new_size
      let (new_data, h1) := allocate_async sz v._mr (size_mul new_capacity sz) v._stream h
      let h2 := synchronize v._stream h1
      let (new_data1, h3) :=
        match v._data with
        | some d =>
          let (nd, h3) := new_data.written (memcpy sz new_data.cells d.cells (size_mul v._size sz)) h2
          (nd, deallocate_async v._mr d.addr (size_mul v._size sz) v._stream h3)
        | none => (new_data, h2)
      ({ v with _data := some new_data1, _capacity := new_capacity }, h3)
    else (v, h)
  let (v2, h2) :=
    if new_size > v1._size then
      match v1._data with
      | some d =>
        let (d1, h2) :=
          d.written (memset sz d.cells v1._size (size_mul (size_sub new_size v1._size) sz)) h1
        ({ v1 with _data := some d1 }, h2)
      | none => (v1, h1.poison)
    else (v1, h1)
  ({ v2 with _size := new_size }, h2)

/-- The member `reserve(new_capacity)`. -/
def reserve (sz : Nat) (new_capacity : Nat) (v : cudf.detail.host_vector T) (h : Heap T) :
    cudf.detail.host_vector T × Heap T :=
  if new_capacity > v._capacity then
    let (new_data, h1) := allocate_async sz v._mr (size_mul new_capacity sz) v._stream h
    let h2 := synchronize v._stream h1
    let (new_data1, h3) :=
      match v._data with
      | some d =>
        let (res, h2c) := copy new_data.cells d.cells v._size h2
        let (nd, h3) := new_data.written res h2c
        (nd, deallocate_async v._mr d.addr (size_mul v._size sz) v._stream h3)
      | none => (new_data, h2)
    ({ v with _data := some new_data1, _capacity := new_capacity }, h3)
  else (v, h)

/-- The member `push_back(T const& value)`.  The reference `value` is read in the
assignment `_data[_size++] = value`, after the call of `reserve`. -/
def push_back (sz : Nat) (value : Ref T) (v : cudf.detail.host_vector T) (h : Heap T) :
    cudf.detail.host_vector T × Heap T :=
  let (v1, h1) :=
    if v._size = v._capacity then
      reserve sz (if v._capacity = 0 then 2 else size_mul v._capacity 2) v h
    else (v, h)
  let (x, h1r) := value.read v._data h.log h1
  let (v2, h2) :=
    match v1._data, x with
    | some d, some x =>
      let (d1, h2) := d.written (store d.cells v1._size x) h1r
      ({ v1 with _data := some d1 }, h2)
    | _, _ => (v1, h1r.poison)
  ({ v2 with _size := size_add v1._size 1 }, h2)

/-- The member `clear()`. -/
def clear (v : cudf.detail.host_vector T) : cudf.detail.host_vector T := { v with _size := 0 }

/-- The member `size()`. -/
def size (v : cudf.detail.host_vector T) : Nat := v._size

/-- The member `is_empty()`. -/
def is_empty (v : cudf.detail.host_vector T) : Bool := v._size == 0

/-- The member `capacity()`. -/
def capacity (v : cudf.detail.host_vector T) : Nat := v._capacity

/-- The member `data()`: the address held, `none` for the null pointer. -/
def data (v : cudf.detail.host_vector T) : Option Nat := v._data.map Region.addr

/-- The member `operator[](idx)` read as a value: `none` when the object is not inside
the region `_data` points to (or `_data` is null). -/
def index (v : cudf.detail.host_vector T) (idx : Nat) : Option T :=
  match v._data with
  | some d => d.cells[idx]?
  | none => none

/-- The member `is_device_accessible()`. -/
def is_device_accessible (v : cudf.detail.host_vector T) : Bool := v._is_device_accessible

/-- The member `memory_resource()`. -/
def memory_resource (v : cudf.detail.host_vector T) : Nat := v._mr

/-- The member `stream()`. -/
def stream (v : cudf.detail.host_vector T) : Nat := v._stream

/-- The objects of the region `_data` points to, none for the null pointer. -/
def cells (v : cudf.detail.host_vector T) : List T :=
  match v._data with
  | some d => d.cells
  | none => []

/-- The elements of the buffer, that is the range `[begin(), end())`. -/
def elements (v : cudf.detail.host_vector T) : List T := v.cells.take v._size

/-- The state invariant of a buffer whose elements are `sz` bytes wide: the region holds
exactly `_capacity` objects (none for the null pointer), its byte size fits in `size_t`,
and `_size` does not exceed `_capacity`. -/
def WF (sz : Nat) (v : cudf.detail.host_vector T) : Prop :=
  v.cells.length = v._capacity ∧ v._size ≤ v._capacity ∧ v._capacity * sz < SIZE_MOD

instance (sz : Nat) (v : cudf.detail.host_vector T) : Decidable (WF sz v) := by
  unfold WF; infer_instance

end host_vector

/-- An empty heap whose fresh memory reads as `junk`. -/
def Heap.init {T : Type} (junk : Nat → Nat → T) : Heap T :=
  { next := 1, junk := junk, log := [], ub := false, copied := 0 }

end cudf.detail


/-! ## Programs over several buffers -/

namespace cudf.detail

variable {T : Type}

/-- One statement of a program that uses buffers.  Buffers are named by the slot they
occupy in the store; a new object always takes a new slot. -/
inductive Cmd (T : Type) where
  | construct (size mr : Nat) (device_accessible : Bool) (stream : Nat)
  | move_construct (src : Nat) (indeterminate : Bool)
  | move_assign (dst src : Nat)
  | resize (i new_size : Nat)
  | reserve (i new_capacity : Nat)
  | push_back (i : Nat) (value : Ref T)
  | clear (i : Nat)
  | destroy (i : Nat)

/-- The objects of a program; `none` is an object whose lifetime has ended. -/
abbrev Store (T : Type) := List (Option (host_vector T))

/-- The live object in slot `i`, if any. -/
def Store.live (s : Store T) (i : Nat) : Option (host_vector T) := (s[i]?).join

/-- Executes one statement.  A statement that names a slot holding no live object is not
a statement of a C++ program and is skipped.  `move_assign` evaluates the guard
`this != &other` of `operator=` on the slots. -/
def step [Zero T] (sz : Nat) (c : Cmd T) (st : Store T × Heap T) : Store T × Heap T :=
  match c with
  | Cmd.construct size mr dev stream =>
    let (v, h) := host_vector.host_vector sz size mr dev stream st.2
    (st.1 ++ [some v], h)
  | Cmd.move_construct src ind =>
    match st.1.live src with
    | some o =>
      let (n, o1) := host_vector.host_vector_move o ind
      (st.1.set src (some o1) ++ [some n], st.2)
    | none => st
  | Cmd.move_assign dst src =>
    if dst ≠ src then
      match st.1.live dst, st.1.live src with
      | some a, some b =>
        let (a1, b1, h) := host_vector.operator_assign sz a b st.2
        ((st.1.set dst (some a1)).set src (some b1), h)
      | _, _ => st
    else st
  | Cmd.resize i new_size =>
    match st.1.live i with
    | some v => let (v1, h) := v.resize sz new_size st.2; (st.1.set i (some v1), h)
    | none => st
  | Cmd.reserve i new_capacity =>
    match st.1.live i with
    | some v => let (v1, h) := v.reserve sz new_capacity st.2; (st.1.set i (some v1), h)
    | none => st
  | Cmd.push_back i value =>
    match st.1.live i with
    | some v => let (v1, h) := v.push_back sz value st.2; (st.1.set i (some v1), h)
    | none => st
  | Cmd.clear i =>
    match st.1.live i with
    | some v => (st.1.set i (some v.clear), st.2)
    | none => st
  | Cmd.destroy i =>
    match st.1.live i with
    | some v => (st.1.set i none, v.destroy sz st.2)
    | none => st

/-- Executes the statements of a program in order. -/
def run [Zero T] (sz : Nat) (cs : List (Cmd T)) (st : Store T × Heap T) : Store T × Heap T :=
  cs.foldl (fun s c => step sz c s) st

/-- Every release in the log (newest first) is of a region that, in the calls before it,
was handed out more often than released. -/
def releases_held : List Event → Prop
  | [] => True
  | e :: older =>
    (match e.released with
     | some a => deallocations a older < allocations a older
     | none => True) ∧ releases_held older

/-- Whether the object in a slot holds the region at `a` (1) or not (0). -/
def holds (a : Nat) (o : Option (host_vector T)) : Nat :=
  match o with
  | some v => if v.data = some a then 1 else 0
  | none => 0

/-- How many live objects of the store hold the region at `a`. -/
def held_count (a : Nat) (s : Store T) : Nat := (s.map (holds a)).sum

/-- The bookkeeping a log has to satisfy when `H a` objects hold the region at `a` and
`next` is the next address to hand out: every region handed out and not held has been
released once, no region is handed out twice, no address from `next` on has been handed
out, and every release is of a region held at that time. -/
def ledger_ok (log : List Event) (next : Nat) (H : Nat → Nat) : Prop :=
  (∀ a, allocations a log = deallocations a log + H a) ∧
  (∀ a, allocations a log ≤ 1) ∧
  (∀ a, next ≤ a → allocations a log = 0) ∧
  releases_held log

/-- Appends a sequence of values with `push_back`, each passed as a reference to an object
outside the buffer. -/
def push_back_all (sz : Nat) (values : List T) (v : host_vector T) (h : Heap T) :
    host_vector T × Heap T :=
  values.foldl (fun st x => st.1.push_back sz (Ref.object x) st.2) (v, h)

/-- The capacity arithmetic of a statement does not overflow: a `push_back` on a full
buffer computes `_capacity * 2` without wrap-around. -/
def step_fits (c : Cmd T) (s : Store T) : Bool :=
  match c with
  | Cmd.push_back i _ =>
    match s.live i with
    | some v => decide (v._size = v._capacity → v._capacity * 2 < SIZE_MOD)
    | none => true
  | _ => true

/-- The capacity arithmetic of no statement of a program overflows when the program is
executed from `st`. -/
def run_fits [Zero T] (sz : Nat) : List (Cmd T) → Store T × Heap T → Bool
  | [], _ => true
  | c :: cs, st => step_fits c st.1 && run_fits sz cs (step sz c st)

/-- Whether a call into a resource or a stream is made on the resource `mr` and the
stream `stream` (a synchronisation names a stream only). -/
def Event.uses (mr stream : Nat) : Event → Bool
  | Event.allocate_async m _ s _ => decide (m = mr ∧ s = stream)
  | Event.deallocate_async m _ _ s => decide (m = mr ∧ s = stream)
  | Event.synchronize s => decide (s = stream)

/-- The capacity the specification gives an append to a full buffer: `max(2, capacity * 2)`,
over the unbounded integers. -/
def append_capacity_spec (capacity : Nat) : Nat := max 2 (capacity * 2)

/-- The byte counts with which a log (newest first) hands out and releases regions, as
pairs (address, bytes). -/
def allocated_bytes (log : List Event) : List (Nat × Nat) :=
  log.filterMap (fun e =>
    match e with
    | Event.allocate_async _ bytes _ addr => some (addr, bytes)
    | _ => none)

/-- The pairs (address, bytes) of the releases of a log. -/
def released_bytes (log : List Event) : List (Nat × Nat) :=
  log.filterMap (fun e =>
    match e with
    | Event.deallocate_async _ addr bytes _ => some (addr, bytes)
    | _ => none)

/-- A heap whose fresh memory reads as 7 everywhere. -/
def sample_heap : Heap Nat := Heap.init (fun _ _ => 7)

/-- An empty buffer of 8-byte elements, as `host_vector(0, mr, stream)` builds it. -/
def sample_empty : host_vector Nat × Heap Nat :=
  host_vector.host_vector 8 0 1 false 0 sample_heap

/-- A buffer of 4-byte elements that was filled with 5, 6, 7 and then cleared: its
region still holds the three values beyond `size() == 0`. -/
def sample_stale : host_vector Nat × Heap Nat :=
  let a := host_vector.host_vector 4 0 1 false 0 sample_heap
  let b := push_back_all 4 [5, 6, 7] a.1 a.2
  (b.1.clear, b.2)

/-- A program with two buffers that grows, shrinks, moves and destroys them. -/
def sample_program : List (Cmd Nat) :=
  [Cmd.construct 3 1 false 0, Cmd.construct 0 2 true 0, Cmd.push_back 1 (Ref.object 5),
   Cmd.push_back 1 (Ref.object 6), Cmd.push_back 1 (Ref.object 7), Cmd.resize 0 9, Cmd.reserve 0 40,
   Cmd.move_construct 0 false, Cmd.move_assign 1 2, Cmd.move_assign 1 1, Cmd.clear 1,
   Cmd.push_back 1 (Ref.object 8), Cmd.destroy 0, Cmd.destroy 1, Cmd.destroy 2]

/-- A store with a filled buffer in slot 0 and another buffer in slot 1. -/
def sample_pair : Store Nat × Heap Nat :=
  run 4 [Cmd.construct 0 1 false 0, Cmd.push_back 0 (Ref.object 5), Cmd.push_back 0 (Ref.object 6),
         Cmd.push_back 0 (Ref.object 7), Cmd.construct 2 9 true 3] ([], sample_heap)

/-- A store whose only buffer holds `[5, 6, 7]` in slot 0. -/
def sample_single : Store Nat × Heap Nat :=
  run 4 [Cmd.construct 0 1 false 0, Cmd.push_back 0 (Ref.object 5),
         Cmd.push_back 0 (Ref.object 6), Cmd.push_back 0 (Ref.object 7)] ([], sample_heap)

/-- A buffer holding one 8-byte element, as `host_vector(1, mr, stream)` builds it. -/
def sample_one : host_vector Nat × Heap Nat :=
  host_vector.host_vector 8 1 1 false 0 sample_heap

/-- What `host_vector(2^63, mr, stream)` builds for 8-byte elements: `size()` and
`capacity()` are `2^63` and the region has `2^63 * 8 mod 2^64 = 0` bytes. -/
def sample_huge : host_vector Nat × Heap Nat :=
  host_vector.host_vector 8 9223372036854775808 1 false 0 sample_heap

/-- A program that builds a buffer of three 4-byte elements, shrinks it to one element
and destroys it. -/
def sample_shrink_program : List (Cmd Nat) :=
  [Cmd.construct 3 1 false 0, Cmd.resize 0 1, Cmd.destroy 0]

/-! ## Allocator selector (`host_memory.hpp`) -/

/-- The two host memory resources `get_pinned_memory_resource()` and
`get_pageable_memory_resource()`. -/
inductive host_memory_resource where
  | pinned
  | pageable
deriving DecidableEq, Repr

/-- The type `rmm_host_allocator<T>`: a resource and a stream. -/
structure rmm_host_allocator where
  mr : host_memory_resource
  stream : Nat
deriving DecidableEq, Repr

/-- The function `get_host_allocator<T>(size, _stream)`; `sz` is `sizeof(T)` and
`threshold` the value of `get_allocate_host_as_pinned_threshold()`. -/
def get_host_allocator (sz : Nat) (size : Nat) (_stream : Nat) (threshold : Nat) :
    rmm_host_allocator :=
  if size_mul size sz ≤ threshold then
    { mr := host_memory_resource.pinned, stream := _stream }
  else
    { mr := host_memory_resource.pageable, stream := _stream }

end cudf.detail

/-! ## Environment policies (`config_utils.cpp`) -/

namespace cudf.io.detail

/-- The state of the process the policies live in: the environment, the names looked up
in it so far (newest first), and the function-local static `env_val` of each of the three
`get_env_policy` functions, `none` until its initialisation has run. -/
structure Process where
  environ : String → Option String
  getenv_calls : List String
  cufile_env_val : Option String
  nvcomp_env_val : Option String
  io_env_val : Option String

/-- A process that has not queried any policy yet. -/
def Process.start (environ : String → Option String) : Process :=
  { environ := environ, getenv_calls := [], cufile_env_val := none, nvcomp_env_val := none,
    io_env_val := none }

/-- The call `setenv(name, value, 1)`. -/
def setenv (name value : String) (p : Process) : Process :=
  { p with environ := fun n => if n = name then some value else p.environ n }

/-- The call `unsetenv(name)`. -/
def unsetenv (name : String) (p : Process) : Process :=
  { p with environ := fun n => if n = name then none else p.environ n }

/-- Modelled from the spec: `getenv_or<std::string>` is declared in `config_utils.hpp`,
which is not among the sources.  It reads the named variable and returns its raw value,
or `default_val` when the variable is absent. -/
def getenv_or (name default_val : String) (p : Process) : String × Process :=
  (match p.environ name with
   | some raw => raw
   | none => default_val,
   { p with getenv_calls := name :: p.getenv_calls })

/-- Modelled from the spec: the macro `CUDF_FAIL` of `cudf/utilities/error.hpp`, which is
not among the sources, signals a fatal error that carries the message. -/
def CUDF_FAIL {α : Type} (msg : String) : Except String α := Except.error msg

namespace cufile_integration

/-- The enumeration `usage_policy` of cuFile. -/
inductive usage_policy where
  | OFF
  | GDS
  | ALWAYS
  | KVIKIO
deriving DecidableEq, Repr

/-- The statements of `get_env_policy()` of cuFile that follow the declaration of the
static `env_val`: the comparisons with the literals and the failure. -/
def policy_of (env_val : String) : Except String usage_policy :=
  if env_val = "OFF" then Except.ok usage_policy.OFF
  else if env_val = "GDS" then Except.ok usage_policy.GDS
  else if env_val = "ALWAYS" then Except.ok usage_policy.ALWAYS
  else if env_val = "KVIKIO" then Except.ok usage_policy.KVIKIO
  else CUDF_FAIL ("Invalid LIBCUDF_CUFILE_POLICY value: " ++ env_val)

/-- The function `get_env_policy()` of cuFile.  The static `env_val` is initialised by the
first call and only read by the later ones. -/
def get_env_policy (p : Process) : Except String usage_policy × Process :=
  let (env_val, p1) :=
    match p.cufile_env_val with
    | some v => (v, p)
    | none =>
      let (v, p1) := getenv_or "LIBCUDF_CUFILE_POLICY" "KVIKIO" p
      (v, { p1 with cufile_env_val := some v })
  (policy_of env_val, p1)

/-- The function `is_always_enabled()`. -/
def is_always_enabled (p : Process) : Except String Bool × Process :=
  let (r, p1) := get_env_policy p
  (r.map (fun x => decide (x = usage_policy.ALWAYS)), p1)

/-- The function `is_gds_enabled()`: `or` evaluates its right operand only when the left
one is false, and an error of either operand leaves the function. -/
def is_gds_enabled (p : Process) : Except String Bool × Process :=
  match is_always_enabled p with
  | (Except.error e, p1) => (Except.error e, p1)
  | (Except.ok true, p1) => (Except.ok true, p1)
  | (Except.ok false, p1) =>
    let (r, p2) := get_env_policy p1
    (r.map (fun x => decide (x = usage_policy.GDS)), p2)

/-- The function `is_kvikio_enabled()`. -/
def is_kvikio_enabled (p : Process) : Except String Bool × Process :=
  let (r, p1) := get_env_policy p
  (r.map (fun x => decide (x = usage_policy.KVIKIO)), p1)

end cufile_integration

namespace nvcomp_integration

/-- The enumeration `usage_policy` of nvCOMP. -/
inductive usage_policy where
  | OFF
  | STABLE
  | ALWAYS
deriving DecidableEq, Repr

/-- The statements of `get_env_policy()` of nvCOMP that follow the declaration of the
static `env_val`. -/
def policy_of (env_val : String) : Except String usage_policy :=
  if env_val = "OFF" then Except.ok usage_policy.OFF
  else if env_val = "STABLE" then Except.ok usage_policy.STABLE
  else if env_val = "ALWAYS" then Except.ok usage_policy.ALWAYS
  else CUDF_FAIL ("Invalid LIBCUDF_NVCOMP_POLICY value: " ++ env_val)

/-- The function `get_env_policy()` of nvCOMP. -/
def get_env_policy (p : Process) : Except String usage_policy × Process :=
  let (env_val, p1) :=
    match p.nvcomp_env_val with
    | some v => (v, p)
    | none =>
      let (v, p1) := getenv_or "LIBCUDF_NVCOMP_POLICY" "STABLE" p
      (v, { p1 with nvcomp_env_val := some v })
  (policy_of env_val, p1)

/-- The function `is_all_enabled()`. -/
def is_all_enabled (p : Process) : Except String Bool × Process :=
  let (r, p1) := get_env_policy p
  (r.map (fun x => decide (x = usage_policy.ALWAYS)), p1)

/-- The function `is_stable_enabled()`. -/
def is_stable_enabled (p : Process) : Except String Bool × Process :=
  match is_all_enabled p with
  | (Except.error e, p1) => (Except.error e, p1)
  | (Except.ok true, p1) => (Except.ok true, p1)
  | (Except.ok false, p1) =>
    let (r, p2) := get_env_policy p1
    (r.map (fun x => decide (x = usage_policy.STABLE)), p2)

end nvcomp_integration

namespace io_config

/-- The enumeration `policy` of the I/O configuration. -/
inductive policy where
  | MMAP_PAGEABLE
  | MMAP_PINNED
  | DIRECT_PAGEABLE
  | DIRECT_PINNED
deriving DecidableEq, Repr

/-- The statements of `get_env_policy()` of the I/O configuration that follow the
declaration of the static `env_val`. -/
def policy_of (env_val : String) : Except String policy :=
  if env_val = "MMAP_PAGEABLE" then Except.ok policy.MMAP_PAGEABLE
  else if env_val = "MMAP_PINNED" then Except.ok policy.MMAP_PINNED
  else if env_val = "DIRECT_PAGEABLE" then Except.ok policy.DIRECT_PAGEABLE
  else if env_val = "DIRECT_PINNED" then Except.ok policy.DIRECT_PINNED
  else CUDF_FAIL ("Invalid LIBCUDF_IO_POLICY value: " ++ env_val)

/-- The function `get_env_policy()` of the I/O configuration. -/
def get_env_policy (p : Process) : Except String policy × Process :=
  let (env_val, p1) :=
    match p.io_env_val with
    | some v => (v, p)
    | none =>
      let (v, p1) := getenv_or "LIBCUDF_IO_POLICY" "MMAP_PAGEABLE" p
      (v, { p1 with io_env_val := some v })
  (policy_of env_val, p1)

/-- The function `is_memory_mapping_enabled()`. -/
def is_memory_mapping_enabled (p : Process) : Except String Bool × Process :=
  match get_env_policy p with
  | (Except.error e, p1) => (Except.error e, p1)
  | (Except.ok policy.MMAP_PAGEABLE, p1) => (Except.ok true, p1)
  | (Except.ok _, p1) =>
    let (r, p2) := get_env_policy p1
    (r.map (fun x => decide (x = policy.MMAP_PINNED)), p2)

/-- The function `is_pinned_enabled()`. -/
def is_pinned_enabled (p : Process) : Except String Bool × Process :=
  match get_env_policy p with
  | (Except.error e, p1) => (Except.error e, p1)
  | (Except.ok policy.MMAP_PINNED, p1) => (Except.ok true, p1)
  | (Except.ok _, p1) =>
    let (r, p2) := get_env_policy p1
    (r.map (fun x => decide (x = policy.DIRECT_PINNED)), p2)

end io_config

/-- The three policies. -/
inductive Policy where
  | cufile
  | nvcomp
  | io
deriving DecidableEq, Repr

/-- The environment variable a policy is read from. -/
def Policy.variable : Policy → String
  | Policy.cufile => "LIBCUDF_CUFILE_POLICY"
  | Policy.nvcomp => "LIBCUDF_NVCOMP_POLICY"
  | Policy.io => "LIBCUDF_IO_POLICY"

/-- The literals the `get_env_policy` function of a policy compares `env_val` with. -/
def Policy.accepted : Policy → List String
  | Policy.cufile => ["OFF", "GDS", "ALWAYS", "KVIKIO"]
  | Policy.nvcomp => ["OFF", "STABLE", "ALWAYS"]
  | Policy.io => ["MMAP_PAGEABLE", "MMAP_PINNED", "DIRECT_PAGEABLE", "DIRECT_PINNED"]

/-- The default literal the `get_env_policy` function of a policy passes to `getenv_or`. -/
def Policy.default_val : Policy → String
  | Policy.cufile => "KVIKIO"
  | Policy.nvcomp => "STABLE"
  | Policy.io => "MMAP_PAGEABLE"

/-- The static `env_val` of the `get_env_policy` function of a policy. -/
def Policy.env_val (pol : Policy) (p : Process) : Option String :=
  match pol with
  | Policy.cufile => p.cufile_env_val
  | Policy.nvcomp => p.nvcomp_env_val
  | Policy.io => p.io_env_val

/-- The value the static `env_val` of a policy has once its initialisation has run: the
value it already has, or else what the environment gives now. -/
def Policy.resolved (pol : Policy) (p : Process) : String :=
  match pol.env_val p with
  | some v => v
  | none =>
    match p.environ pol.variable with
    | some raw => raw
    | none => pol.default_val

/-- The process after the `get_env_policy` function of a policy has been called. -/
def Policy.initialise (pol : Policy) (p : Process) : Process :=
  match pol with
  | Policy.cufile => (cufile_integration.get_env_policy p).2
  | Policy.nvcomp => (nvcomp_integration.get_env_policy p).2
  | Policy.io => (io_config.get_env_policy p).2

/-- The error the `get_env_policy` function of a policy raises for a value of its static
`env_val`, `none` when it returns a policy. -/
def Policy.failure (pol : Policy) (env_val : String) : Option String :=
  match pol with
  | Policy.cufile =>
    match cufile_integration.policy_of env_val with
    | Except.error e => some e
    | Except.ok _ => none
  | Policy.nvcomp =>
    match nvcomp_integration.policy_of env_val with
    | Except.error e => some e
    | Except.ok _ => none
  | Policy.io =>
    match io_config.policy_of env_val with
    | Except.error e => some e
    | Except.ok _ => none

/-- The derived predicates the policies export. -/
inductive Query where
  | cufile_is_always_enabled
  | cufile_is_gds_enabled
  | cufile_is_kvikio_enabled
  | nvcomp_is_all_enabled
  | nvcomp_is_stable_enabled
  | io_is_memory_mapping_enabled
  | io_is_pinned_enabled
deriving DecidableEq, Repr

/-- The policy a predicate belongs to. -/
def Query.policy : Query → Policy
  | Query.cufile_is_always_enabled => Policy.cufile
  | Query.cufile_is_gds_enabled => Policy.cufile
  | Query.cufile_is_kvikio_enabled => Policy.cufile
  | Query.nvcomp_is_all_enabled => Policy.nvcomp
  | Query.nvcomp_is_stable_enabled => Policy.nvcomp
  | Query.io_is_memory_mapping_enabled => Policy.io
  | Query.io_is_pinned_enabled => Policy.io

/-- Calls a predicate. -/
def Query.call : Query → Process → Except String Bool × Process
  | Query.cufile_is_always_enabled => cufile_integration.is_always_enabled
  | Query.cufile_is_gds_enabled => cufile_integration.is_gds_enabled
  | Query.cufile_is_kvikio_enabled => cufile_integration.is_kvikio_enabled
  | Query.nvcomp_is_all_enabled => nvcomp_integration.is_all_enabled
  | Query.nvcomp_is_stable_enabled => nvcomp_integration.is_stable_enabled
  | Query.io_is_memory_mapping_enabled => io_config.is_memory_mapping_enabled
  | Query.io_is_pinned_enabled => io_config.is_pinned_enabled

/-- What a process does between two queries of interest: it changes its environment or
calls a predicate. -/
inductive Action where
  | setenv (name value : String)
  | unsetenv (name : String)
  | query (q : Query)

/-- Performs one action. -/
def Action.perform : Action → Process → Process
  | Action.setenv name value, p => cudf.io.detail.setenv name value p
  | Action.unsetenv name, p => cudf.io.detail.unsetenv name p
  | Action.query q, p => (q.call p).2

/-- Performs a sequence of actions in order. -/
def perform_all (acts : List Action) (p : Process) : Process :=
  acts.foldl (fun s a => a.perform s) p

/-- A process whose environment sets the three policy variables to values that are not
accepted, and nothing else. -/
def sample_bad_process : Process :=
  Process.start (fun n =>
    if n = "LIBCUDF_CUFILE_POLICY" then some "GDS-ONLY"
    else if n = "LIBCUDF_NVCOMP_POLICY" then some "stable"
    else if n = "LIBCUDF_IO_POLICY" then some ""
    else none)

/-- A process whose environment sets the cuFile policy variable to `GDS`. -/
def sample_gds_process : Process :=
  Process.start (fun n => if n = "LIBCUDF_CUFILE_POLICY" then some "GDS" else none)

/-- A process whose environment sets the I/O policy variable to `DIRECT_PINNED`. -/
def sample_io_process : Process :=
  Process.start (fun n => if n = "LIBCUDF_IO_POLICY" then some "DIRECT_PINNED" else none)

/-- A process whose environment sets the nvCOMP policy variable to `OFF`. -/
def sample_nvcomp_process : Process :=
  Process.start (fun n => if n = "LIBCUDF_NVCOMP_POLICY" then some "OFF" else none)

/-- A message contains a text. -/
def contains (msg part : String) : Prop := ∃ pre post : String, msg = pre ++ part ++ post

end cudf.io.detail

/-! ## `cudf::table` (`types.hpp`) -/

namespace cudf

/-- Modelled from the spec: the struct `gdf_column` is declared in `cudf.h`, which is not
among the sources.  The constructor of `table` reads only its member `size`
(a `gdf_size_type`, a signed integer). -/
structure gdf_column where
  size : Int
deriving DecidableEq, Repr

/-- Modelled from the spec: the macro `CUDF_EXPECTS(cond, reason)` of
`utilities/error_utils.hpp`, which is not among the sources, signals an error that
carries `reason` when `cond` is false and does nothing otherwise. -/
def CUDF_EXPECTS (cond : Bool) (reason : String) : Except String Unit :=
  if cond then Except.ok () else Except.error reason

/-- The member access `col->size` on a `gdf_column*`; `none` is the null pointer, through
which the constructor never reads because a passed `CUDF_EXPECTS` precedes every read. -/
def gdf_column.size_of (col : Option gdf_column) : Int :=
  match col with
  | some c => c.size
  | none => 0

/-- The call `std::for_each(first, last, f)` on the elements `xs` of the range, with a
function that may signal an error: it stops at the first error. -/
def for_each {α : Type} (xs : List α) (f : α → Except String Unit) : Except String Unit :=
  match xs with
  | [] => Except.ok ()
  | x :: rest =>
    match f x with
    | Except.error e => Except.error e
    | Except.ok _ => for_each rest f

/-- The data members of `cudf::table`.  The array `columns` points to is the function from
an index to the pointer stored there. -/
structure table where
  columns : Nat → Option gdf_column
  _num_columns : Int
  _num_rows : Int

/-- The lambda the constructor of `table` passes to `std::for_each`; `_num_rows` is the
member it reads through the captured `this`. -/
def table.check_column (_num_rows : Int) (col : Option gdf_column) : Except String Unit :=
  match CUDF_EXPECTS col.isSome "Null input column" with
  | Except.error e => Except.error e
  | Except.ok _ =>
    CUDF_EXPECTS (decide (_num_rows = gdf_column.size_of col)) "Column size mismatch"

/-- The constructor `table(gdf_column* cols[], gdf_size_type num_cols)`. -/
def table.table (cols : Nat → Option gdf_column) (num_cols : Int) :
    Except String cudf.table :=
  match CUDF_EXPECTS (cols 0).isSome "Null input column" with
  | Except.error e => Except.error e
  | Except.ok _ =>
    let _num_rows := gdf_column.size_of (cols 0)
    match for_each ((List.range num_cols.toNat).map cols) (table.check_column _num_rows) with
    | Except.error e => Except.error e
    | Except.ok _ =>
      Except.ok { columns := cols, _num_columns := num_cols, _num_rows := _num_rows }

/-- The member `num_columns()`. -/
def table.num_columns (t : cudf.table) : Int := t._num_columns

/-- The member `num_rows()`. -/
def table.num_rows (t : cudf.table) : Int := t._num_rows

/-- The array that holds the pointers of a list, and null pointers after them. -/
def column_array (cols : List (Option gdf_column)) : Nat → Option gdf_column :=
  fun i => (cols[i]?).join

end cudf

/-! ## Arithmetic and memory lemmas -/

namespace cudf.detail

theorem size_mul_of_lt {a b : Nat} (h : a * b < SIZE_MOD) : size_mul a b = a * b :=
  Nat.mod_eq_of_lt h

theorem size_sub_of_le {a b : Nat} (hab : b ≤ a) (ha : a < SIZE_MOD) : size_sub a b = a - b := by
  unfold size_sub SIZE_MOD at *
  omega

theorem mul_lt_of_le {a b sz : Nat} (hab : a ≤ b) (h : b * sz < SIZE_MOD) : a * sz < SIZE_MOD :=
  lt_of_le_of_lt (Nat.mul_le_mul_right sz hab) h

/-- Reading a list after `off` objects were kept, `n` zeroed, and the rest kept. -/
theorem getElem?_zeroed {T : Type} [Zero T] (l : List T) (off n i : Nat)
    (h : off + n ≤ l.length) :
    (l.take off ++ List.replicate n 0 ++ l.drop (off + n))[i]? =
      if i < off then l[i]? else if i < off + n then some 0 else l[i]? := by
  simp only [List.getElem?_append, List.length_take, List.length_append,
    List.length_replicate, List.getElem?_take, List.getElem?_drop, List.getElem?_replicate]
  have hmin : min off l.length = off := by omega
  rw [hmin]
  split_ifs <;> first | rfl | omega | (congr 1; omega)

/-- Reading a list whose first `n` objects were overwritten by those of `src`. -/
theorem getElem?_copied {T : Type} (dst src : List T) (n i : Nat) (h : n ≤ src.length) :
    (src.take n ++ dst.drop n)[i]? = if i < n then src[i]? else dst[i]? := by
  simp only [List.getElem?_append, List.length_take, List.getElem?_take, List.getElem?_drop]
  have hmin : min n src.length = n := by omega
  rw [hmin]
  split_ifs <;> first | rfl | omega | (congr 1; omega)

theorem length_zeroed {T : Type} [Zero T] (l : List T) (off n : Nat) (h : off + n ≤ l.length) :
    (l.take off ++ List.replicate n 0 ++ l.drop (off + n)).length = l.length := by
  simp only [List.length_append, List.length_take, List.length_replicate, List.length_drop]
  omega

theorem length_copied {T : Type} (dst src : List T) (n : Nat) (h : n ≤ src.length)
    (h2 : n ≤ dst.length) : (src.take n ++ dst.drop n).length = dst.length := by
  simp only [List.length_append, List.length_take, List.length_drop]
  omega

end cudf.detail

namespace cudf.detail.host_vector

variable {T : Type}

theorem index_eq_cells (v : cudf.detail.host_vector T) (i : Nat) : v.index i = v.cells[i]? := by
  unfold index cells
  cases v._data <;> simp

/-- The contents of a fresh region of `n` objects. -/
theorem allocate_async_cells (sz mr n stream : Nat) (h : Heap T) (hsz : 0 < sz)
    (hn : n * sz < SIZE_MOD) :
    (allocate_async sz mr (size_mul n sz) stream h).1.cells.length = n := by
  simp [allocate_async, size_mul_of_lt hn, Nat.mul_div_cancel _ hsz]

theorem resize_size [Zero T] (sz m : Nat) (v : cudf.detail.host_vector T) (h : Heap T) :
    (v.resize sz m h).1._size = m := by
  simp only [resize]

theorem resize_capacity [Zero T] (sz m : Nat) (v : cudf.detail.host_vector T) (h : Heap T) :
    (v.resize sz m h).1._capacity =
      if m > v._capacity then max (size_mul v._capacity 2) m else v._capacity := by
  unfold resize
  by_cases hc : m > v._capacity
  · simp only [hc, if_true]
    cases hd : v._data <;> simp only [] <;> split_ifs <;> simp
  · simp only [hc, if_false]
    cases hd : v._data <;> simp only [] <;> split_ifs <;> simp [hd]

/-- The contents of the buffer after `resize`, when no byte size wraps around. -/
theorem resize_cells [Zero T] (sz m : Nat) (v : cudf.detail.host_vector T) (h : Heap T)
    (hsz : 0 < sz) (hwf : WF sz v) (hm : m < SIZE_MOD)
    (hno : v._capacity < m → max (size_mul v._capacity 2) m * sz < SIZE_MOD) :
    (v.resize sz m h).1.cells =
      (let base := if m > v._capacity then
          v.cells.take v._size ++
            (((List.range (max (size_mul v._capacity 2) m)).map (h.junk h.next)).drop v._size)
        else v.cells
       if m > v._size then
         base.take v._size ++ List.replicate (m - v._size) 0 ++ base.drop m
       else base) ∧
    (v.resize sz m h).2.ub = h.ub := by
  obtain ⟨hlen, hle, hcap⟩ := hwf
  have hsize : v._size * sz < SIZE_MOD := mul_lt_of_le hle hcap
  by_cases hc : m > v._capacity
  · have hnc := hno hc
    have hms : m > v._size := by omega
    have hsub : (m - v._size) * sz < SIZE_MOD :=
      mul_lt_of_le (le_trans (Nat.sub_le _ _) (le_max_right _ _)) hnc
    unfold resize
    simp only [hc, if_true, allocate_async, size_mul_of_lt hnc,
      Nat.mul_div_cancel _ hsz, synchronize, size_mul_of_lt hsize]
    cases hd : v._data with
    | none =>
      have hcap0 : v._capacity = 0 := by simpa [cells, hd] using hlen.symm
      have hs0 : v._size = 0 := by omega
      have hm0 : 0 < m := by omega
      simp [hs0, hcap0, hm0, cells, memset, Region.written, size_sub_of_le (Nat.zero_le m) hm,
        size_mul_of_lt (show m * sz < SIZE_MOD by simpa [hs0] using hsub),
        Nat.mul_div_cancel _ hsz]
    | some d =>
      have hdl : d.cells.length = v._capacity := by simpa [cells, hd] using hlen
      simp [hms, hd, cells, memcpy, memset, Region.written, deallocate_async,
        size_sub_of_le (le_of_lt hms) hm, size_mul_of_lt hsub, Nat.mul_div_cancel _ hsz, hdl,
        hle, le_of_lt hms]
  · have hmc : m ≤ v._capacity := by omega
    unfold resize
    simp only [hc, if_false]
    by_cases hms : m > v._size
    · have hsub : (m - v._size) * sz < SIZE_MOD :=
        mul_lt_of_le (le_trans (Nat.sub_le _ _) hmc) hcap
      cases hd : v._data with
      | none =>
        have hcap0 : v._capacity = 0 := by simpa [cells, hd] using hlen.symm
        omega
      | some d =>
        have hdl : d.cells.length = v._capacity := by simpa [cells, hd] using hlen
        simp [hms, hd, cells, memset, Region.written, size_sub_of_le (le_of_lt hms) hm,
          size_mul_of_lt hsub, Nat.mul_div_cancel _ hsz, hdl, le_of_lt hms, hmc]
    · simp [hms, cells]

/-- C1 (amended): on a well-formed buffer, when the byte size of the region that
`resize(m)` allocates for `m > capacity()`, new capacity times `sizeof(T)`, does not wrap
around in `size_t`, the call leaves `size() == m` and `capacity() >= m`, keeps every element below
`min(old size, m)`, makes every element in `[old size, m)` read as zero (stale values
included), accesses no memory outside the region and leaves a well-formed buffer. -/
theorem resize_spec [Zero T] (sz m : Nat) (v : cudf.detail.host_vector T) (h : Heap T)
    (hsz : 0 < sz) (hwf : WF sz v) (hm : m < SIZE_MOD)
    (hno : v._capacity < m → max (size_mul v._capacity 2) m * sz < SIZE_MOD) :
    (v.resize sz m h).1.size = m ∧ m ≤ (v.resize sz m h).1.capacity ∧
    (∀ i, i < min v.size m → (v.resize sz m h).1.index i = v.index i) ∧
    (∀ i, v.size ≤ i → i < m → (v.resize sz m h).1.index i = some 0) ∧
    (v.resize sz m h).2.ub = h.ub ∧
    WF sz (v.resize sz m h).1 := by
  obtain ⟨hcells, hub⟩ := resize_cells sz m v h hsz hwf hm hno
  obtain ⟨hlen, hle, hcap⟩ := hwf
  have hcapacity := resize_capacity sz m v h
  have hwf2 : WF sz (v.resize sz m h).1 := by
    refine ⟨?_, ?_, ?_⟩
    · rw [hcells, hcapacity]
      by_cases hc : m > v._capacity
      · have hms : m > v._size := by omega
        have hsplit : m = v._size + (m - v._size) := by omega
        simp only [hc, hms, if_true]
        have hb : (List.take v._size v.cells ++ List.drop v._size
            (List.map (h.junk h.next) (List.range (max (size_mul v._capacity 2) m)))).length
            = max (size_mul v._capacity 2) m := by
          simp only [List.length_append, List.length_take, List.length_drop, List.length_map,
            List.length_range]
          omega
        have := length_zeroed (List.take v._size v.cells ++ List.drop v._size
            (List.map (h.junk h.next) (List.range (max (size_mul v._capacity 2) m))))
            v._size (m - v._size) (by rw [hb]; omega)
        rw [← hsplit] at this
        rw [this, hb]
      · simp only [hc, if_false]
        split_ifs with hms
        · have hsplit : m = v._size + (m - v._size) := by omega
          have := length_zeroed v.cells v._size (m - v._size) (by omega)
          rw [← hsplit] at this
          rw [this, hlen]
        · exact hlen
    · rw [resize_size, hcapacity]
      split_ifs with hc
      · exact le_max_right _ _
      · omega
    · rw [hcapacity]
      split_ifs with hc
      · exact hno hc
      · exact hcap
  refine ⟨resize_size sz m v h, ?_, ?_, ?_, hub, hwf2⟩
  · simp only [capacity, hcapacity]
    split_ifs with hc
    · exact le_max_right _ _
    · omega
  · intro i hi
    simp only [size, lt_min_iff] at hi
    rw [index_eq_cells, index_eq_cells, hcells]
    by_cases hc : m > v._capacity
    · have hms : m > v._size := by omega
      simp only [hc, hms, if_true]
      rw [List.append_assoc, List.getElem?_append_left (by simp; omega),
        List.getElem?_take_of_lt hi.1, List.getElem?_append_left (by simp; omega),
        List.getElem?_take_of_lt hi.1]
    · simp only [hc, if_false]
      split_ifs with hms
      · rw [List.append_assoc, List.getElem?_append_left (by simp; omega),
          List.getElem?_take_of_lt hi.1]
      · rfl
  · intro i hlo hhi
    simp only [size] at hlo
    have hms : m > v._size := by omega
    rw [index_eq_cells, hcells]
    simp only [hms, if_true]
    have hsplit : m = v._size + (m - v._size) := by omega
    by_cases hc : m > v._capacity
    · simp only [hc, if_true]
      have key := getElem?_zeroed (List.take v._size v.cells ++ List.drop v._size
        (List.map (h.junk h.next) (List.range (max (size_mul v._capacity 2) m)))) v._size
        (m - v._size) i (by simp; omega)
      rw [← hsplit] at key
      rw [key]
      split_ifs <;> first | rfl | omega
    · simp only [hc, if_false]
      have key := getElem?_zeroed v.cells v._size (m - v._size) i (by omega)
      rw [← hsplit] at key
      rw [key]
      split_ifs <;> first | rfl | omega

end cudf.detail.host_vector

namespace cudf.detail.host_vector

variable {T : Type}

/-- C1 (counterexample): on an empty buffer of 8-byte elements, `resize(2^61)` asks the
resource for `2^61 * 8 mod 2^64 = 0` bytes and zeroes 0 bytes, so the claim fails there:
the element at index 0 does not read as zero. -/
theorem resize_claim_fails_when_bytes_wrap :
    WF 8 sample_empty.1 ∧ 2305843009213693952 < SIZE_MOD ∧
    ¬ ((sample_empty.1.resize 8 2305843009213693952 sample_empty.2).1.size
          = 2305843009213693952 ∧
       2305843009213693952 ≤
          (sample_empty.1.resize 8 2305843009213693952 sample_empty.2).1.capacity ∧
       (∀ i, i < min sample_empty.1.size 2305843009213693952 →
          (sample_empty.1.resize 8 2305843009213693952 sample_empty.2).1.index i
            = sample_empty.1.index i) ∧
       (∀ i, sample_empty.1.size ≤ i → i < 2305843009213693952 →
          (sample_empty.1.resize 8 2305843009213693952 sample_empty.2).1.index i = some 0)) := by
  refine ⟨by decide, by decide, ?_⟩
  rintro ⟨-, -, -, hzero⟩
  have h0 := hzero 0 (by decide) (by decide)
  revert h0
  decide

/-- C1 (witness): the cleared buffer `sample_stale` still holds 5, 6, 7 in its region, and
`resize(3)` makes the three exposed elements read as zero. -/
theorem resize_spec_witness :
    (0 < 4 ∧ WF 4 sample_stale.1 ∧ 3 < SIZE_MOD ∧ sample_stale.1.cells = [5, 6, 7, 7]) ∧
    ((sample_stale.1.resize 4 3 sample_stale.2).1.size = 3 ∧
     3 ≤ (sample_stale.1.resize 4 3 sample_stale.2).1.capacity ∧
     (∀ i, i < min sample_stale.1.size 3 →
        (sample_stale.1.resize 4 3 sample_stale.2).1.index i = sample_stale.1.index i) ∧
     (∀ i, sample_stale.1.size ≤ i → i < 3 →
        (sample_stale.1.resize 4 3 sample_stale.2).1.index i = some 0) ∧
     (sample_stale.1.resize 4 3 sample_stale.2).2.ub = sample_stale.2.ub ∧
     WF 4 (sample_stale.1.resize 4 3 sample_stale.2).1) :=
  ⟨⟨by decide, by decide, by decide, by decide⟩,
   resize_spec 4 3 sample_stale.1 sample_stale.2 (by decide) (by decide) (by decide)
     (by decide)⟩

/-- C2 (amended): for every `n` whose byte size `n * sizeof(T)` does not wrap around in
`size_t`, the constructor yields `size() == n`, `capacity() >= n`, every element below `n`
equal to zero and a well-formed buffer, without access outside the region; for `n == 0`
(whatever the element size) nothing is requested from the resource and `data()` is null. -/
theorem constructor_spec [Zero T] (sz n mr : Nat) (dev : Bool) (stream : Nat) (h : Heap T)
    (hsz : 0 < sz) (hn : n * sz < SIZE_MOD) :
    (host_vector sz n mr dev stream h).1.size = n ∧
    n ≤ (host_vector sz n mr dev stream h).1.capacity ∧
    (∀ i, i < n → (host_vector sz n mr dev stream h).1.index i = some 0) ∧
    WF sz (host_vector sz n mr dev stream h).1 ∧
    (host_vector sz n mr dev stream h).2.ub = h.ub ∧
    (∀ s : Nat, (host_vector s 0 mr dev stream h).2 = h ∧
      (host_vector s 0 mr dev stream h).1.data = none ∧
      (host_vector s 0 mr dev stream h).1.size = 0 ∧
      (host_vector s 0 mr dev stream h).1.capacity = 0) := by
  have hlast : ∀ s : Nat, (host_vector s 0 mr dev stream h).2 = h ∧
      (host_vector s 0 mr dev stream h).1.data = none ∧
      (host_vector s 0 mr dev stream h).1.size = 0 ∧
      (host_vector s 0 mr dev stream h).1.capacity = 0 := by
    intro s
    simp [host_vector, data, size, capacity]
  by_cases h0 : n = 0
  · subst h0
    refine ⟨(hlast sz).2.2.1, by simp, by simp, ?_, by rw [(hlast sz).1], hlast⟩
    simp [WF, host_vector, cells, SIZE_MOD]
  · have key : (host_vector sz n mr dev stream h).1.cells = List.replicate n 0 ∧
        (host_vector sz n mr dev stream h).1._size = n ∧
        (host_vector sz n mr dev stream h).1._capacity = n ∧
        (host_vector sz n mr dev stream h).2.ub = h.ub := by
      simp [host_vector, h0, allocate_async, synchronize, memset, Region.written, cells,
        size_mul_of_lt hn, Nat.mul_div_cancel _ hsz]
    obtain ⟨hcells, hsize, hcap, hub⟩ := key
    refine ⟨hsize, by simp [capacity, hcap], ?_, ?_, hub, hlast⟩
    · intro i hi
      rw [index_eq_cells, hcells, List.getElem?_replicate]
      simp [hi]
    · exact ⟨by rw [hcells, hcap, List.length_replicate], by rw [hsize, hcap],
        by rw [hcap]; exact hn⟩

/-- C2 (counterexample): for 8-byte elements and `n = 2^61` the constructor asks for
`2^61 * 8 mod 2^64 = 0` bytes and zeroes 0 bytes: `size()` is `n` but the element at
index 0 is outside the region and does not read as zero. -/
theorem constructor_claim_fails_when_bytes_wrap :
    ¬ ((host_vector 8 2305843009213693952 1 false 0 sample_heap).1.size
          = 2305843009213693952 ∧
       2305843009213693952 ≤
          (host_vector 8 2305843009213693952 1 false 0 sample_heap).1.capacity ∧
       (∀ i, i < 2305843009213693952 →
          (host_vector 8 2305843009213693952 1 false 0 sample_heap).1.index i = some 0)) := by
  rintro ⟨-, -, hzero⟩
  have h0 := hzero 0 (by decide)
  revert h0
  decide

/-- C2 (witness): three 4-byte elements. -/
theorem constructor_spec_witness :
    (0 < 4 ∧ 3 * 4 < SIZE_MOD) ∧
    (host_vector 4 3 1 false 0 sample_heap).1.size = 3 ∧
    (∀ i, i < 3 → (host_vector 4 3 1 false 0 sample_heap).1.index i = some 0) :=
  ⟨⟨by decide, by decide⟩,
   (constructor_spec 4 3 1 false 0 sample_heap (by decide) (by decide)).1,
   (constructor_spec 4 3 1 false 0 sample_heap (by decide) (by decide)).2.2.1⟩

end cudf.detail.host_vector

namespace cudf.detail.host_vector

variable {T : Type}

/-- The fields and contents of the buffer after `reserve`, when no byte size wraps. -/
theorem reserve_cells (sz c : Nat) (v : cudf.detail.host_vector T) (h : Heap T)
    (hsz : 0 < sz) (hwf : WF sz v) (hno : v._capacity < c → c * sz < SIZE_MOD) :
    (v.reserve sz c h).1.cells =
      (if c > v._capacity then
         v.cells.take v._size ++ (((List.range c).map (h.junk h.next)).drop v._size)
       else v.cells) ∧
    (v.reserve sz c h).1._size = v._size ∧
    (v.reserve sz c h).1._capacity = (if c > v._capacity then c else v._capacity) ∧
    (v.reserve sz c h).2.ub = h.ub := by
  obtain ⟨hlen, hle, hcap⟩ := hwf
  by_cases hc : c > v._capacity
  · have hnc := hno hc
    unfold reserve
    simp only [hc, if_true, allocate_async, size_mul_of_lt hnc, Nat.mul_div_cancel _ hsz,
      synchronize]
    cases hd : v._data with
    | none =>
      have hcap0 : v._capacity = 0 := by simpa [cells, hd] using hlen.symm
      have hs0 : v._size = 0 := by omega
      simp [hs0, cells]
    | some d =>
      have hdl : d.cells.length = v._capacity := by simpa [cells, hd] using hlen
      simp [hd, cells, copy, Region.written, deallocate_async, hdl, hle,
        le_trans hle (le_of_lt hc)]
  · simp [reserve, hc]

/-- The buffer the constructor builds for `n != 0` when its byte size does not wrap. -/
theorem constructor_eq [Zero T] (sz n mr : Nat) (dev : Bool) (stream : Nat) (h : Heap T)
    (hsz : 0 < sz) (hn : n * sz < SIZE_MOD) (h0 : n ≠ 0) :
    (host_vector sz n mr dev stream h).1 =
      { _data := some { addr := h.next, cells := List.replicate n 0 }, _size := n,
        _capacity := n, _is_device_accessible := dev, _mr := mr, _stream := stream } := by
  simp [host_vector, h0, allocate_async, synchronize, memset, Region.written,
    size_mul_of_lt hn, Nat.mul_div_cancel _ hsz]

/-- An append to a full buffer whose doubled capacity has a byte size that wraps to zero
leaves the first element unreadable. -/
theorem push_back_wraps [Zero T] (n mr : Nat) (dev : Bool) (stream : Nat) (x : T)
    (h : Heap T) (hn : n * 8 < SIZE_MOD) (h0 : n ≠ 0) (hgt : n < size_mul n 2)
    (hwrap : size_mul (size_mul n 2) 8 = 0) :
    ((host_vector 8 n mr dev stream h).1.push_back 8 (Ref.object x)
        (host_vector 8 n mr dev stream h).2).1.index 0 = none := by
  rw [constructor_eq 8 n mr dev stream h (by decide) hn h0]
  simp [push_back, reserve, h0, hgt, hwrap, allocate_async, synchronize, copy, Ref.read,
    Region.written, deallocate_async, store, index]

theorem push_back_all_singleton (sz : Nat) (x : T) (v : cudf.detail.host_vector T)
    (h : Heap T) : push_back_all sz [x] v h = v.push_back sz (Ref.object x) h := rfl

end cudf.detail.host_vector

namespace cudf.detail

variable {T : Type}

theorem host_vector.reserve_fields (sz c : Nat) (v : cudf.detail.host_vector T) (h : Heap T) :
    (v.reserve sz c h).1._size = v._size ∧
    (v.reserve sz c h).1._capacity = (if c > v._capacity then c else v._capacity) := by
  unfold host_vector.reserve
  by_cases hc : c > v._capacity
  · simp only [hc, if_true]
    cases hd : v._data <;> simp
  · simp [hc]

/-- A read through a reference changes nothing in the heap but the flag `ub`, which it can
only set. -/
theorem Ref.read_frame (r : Ref T) (origin : Option (Region T)) (log0 : List Event)
    (h : Heap T) :
    (r.read origin log0 h).2.log = h.log ∧ (r.read origin log0 h).2.next = h.next ∧
    (r.read origin log0 h).2.copied = h.copied ∧ (r.read origin log0 h).2.junk = h.junk ∧
    (h.ub = true → (r.read origin log0 h).2.ub = true) := by
  cases r with
  | object x => simp [Ref.read]
  | element idx =>
    cases origin with
    | none => simp [Ref.read, Heap.poison]
    | some d0 =>
      cases hc : d0.cells[idx]? with
      | none => simp [Ref.read, hc, Heap.poison]
      | some x =>
        simp only [Ref.read, hc]
        split_ifs <;> simp [Heap.poison]

/-- How `push_back` is composed of the optional `reserve`, the read of its argument and
the store: everything but the contents of the region, `_size` and the flag `ub` is as
`reserve` left it. -/
theorem host_vector.push_back_parts (sz : Nat) (r : Ref T) (v : cudf.detail.host_vector T)
    (h : Heap T) (q : cudf.detail.host_vector T × Heap T)
    (hq : (if v._size = v._capacity then
        v.reserve sz (if v._capacity = 0 then 2 else size_mul v._capacity 2) h
      else (v, h)) = q) :
    (v.push_back sz r h).1._size = size_add q.1._size 1 ∧
    (v.push_back sz r h).1._capacity = q.1._capacity ∧
    (v.push_back sz r h).1.data = q.1.data ∧
    (v.push_back sz r h).1._mr = q.1._mr ∧
    (v.push_back sz r h).1._stream = q.1._stream ∧
    (v.push_back sz r h).1._is_device_accessible = q.1._is_device_accessible ∧
    (v.push_back sz r h).2.log = q.2.log ∧
    (v.push_back sz r h).2.next = q.2.next ∧
    (v.push_back sz r h).2.copied = q.2.copied ∧
    (q.2.ub = true → (v.push_back sz r h).2.ub = true) := by
  obtain ⟨v1, h1⟩ := q
  unfold host_vector.push_back
  rw [hq]
  obtain ⟨e1, e2, e3, -, e5⟩ := Ref.read_frame r v._data h.log h1
  simp only []
  generalize Ref.read r v._data h.log h1 = rd at e1 e2 e3 e5 ⊢
  obtain ⟨o, h1r⟩ := rd
  simp only at e1 e2 e3 e5 ⊢
  cases hd : v1._data with
  | none => simp [host_vector.data, hd, Heap.poison, e1, e2, e3]
  | some d =>
    cases o with
    | none => simp [host_vector.data, hd, Heap.poison, e1, e2, e3]
    | some x =>
      simp only [Region.written]
      cases store d.cells v1._size x with
      | none => simp [host_vector.data, hd, Heap.poison, e1, e2, e3]
      | some c => simpa [host_vector.data, hd, e1, e2, e3] using e5

theorem host_vector.push_back_fields (sz : Nat) (x : Ref T) (v : cudf.detail.host_vector T)
    (h : Heap T) :
    (v.push_back sz x h).1._size = size_add v._size 1 ∧
    (v.push_back sz x h).1._capacity =
      (if v._size = v._capacity then
         (if (if v._capacity = 0 then 2 else size_mul v._capacity 2) > v._capacity then
            (if v._capacity = 0 then 2 else size_mul v._capacity 2)
          else v._capacity)
       else v._capacity) := by
  obtain ⟨hs, hk, -⟩ := host_vector.push_back_parts sz x v h _ rfl
  rw [hs, hk]
  by_cases hfull : v._size = v._capacity
  · obtain ⟨hs, hk⟩ := host_vector.reserve_fields sz
      (if v._capacity = 0 then 2 else size_mul v._capacity 2) v h
    simp only [hfull, if_true] at hs hk ⊢
    rw [hs, hk]
    exact ⟨rfl, rfl⟩
  · simp [hfull]

theorem Store.live_mem {s : Store T} {i : Nat} {v : cudf.detail.host_vector T}
    (hl : s.live i = some v) : some v ∈ s := by
  unfold Store.live at hl
  cases hi : s[i]? with
  | none => simp [hi] at hl
  | some o =>
    simp only [hi, Option.join] at hl
    have : o = some v := by simpa using hl
    subst this
    exact List.getElem?_mem hi

/-- One statement keeps `_size <= _capacity` in every object of the store. -/
theorem step_keeps_size_le_capacity [Zero T] (sz : Nat) (c : Cmd T) (s : Store T)
    (h : Heap T) (hinv : ∀ v, some v ∈ s → v._size ≤ v._capacity)
    (hfit : step_fits c s = true) :
    ∀ v, some v ∈ (step sz c (s, h)).1 → v._size ≤ v._capacity := by
  intro w hw
  cases c with
  | construct size mr dev stream =>
    simp only [step, List.mem_append, List.mem_singleton] at hw
    rcases hw with hw | hw
    · exact hinv w hw
    · have hw2 : w = (host_vector.host_vector sz size mr dev stream h).1 := by
        simpa using hw
      subst hw2
      by_cases h0 : size = 0 <;> simp [host_vector.host_vector, h0]
  | move_construct src ind =>
    simp only [step] at hw
    cases hl : s.live src with
    | none => simp only [hl] at hw; exact hinv w hw
    | some o =>
      simp only [hl, host_vector.host_vector_move, List.mem_append, List.mem_singleton] at hw
      rcases hw with hw | hw
      · rcases List.mem_or_eq_of_mem_set hw with hw | hw
        · exact hinv w hw
        · have hw2 := Option.some.inj hw
          subst hw2
          simp
      · have hw2 := Option.some.inj hw
        subst hw2
        exact hinv o (Store.live_mem hl)
  | move_assign dst src =>
    simp only [step] at hw
    by_cases hne : dst ≠ src
    · rw [if_pos hne] at hw
      cases hl1 : s.live dst with
      | none => simp only [hl1] at hw; exact hinv w hw
      | some a =>
        cases hl2 : s.live src with
        | none => simp only [hl1, hl2] at hw; exact hinv w hw
        | some b =>
          simp only [hl1, hl2, host_vector.operator_assign] at hw
          rcases List.mem_or_eq_of_mem_set hw with hw | hw
          · rcases List.mem_or_eq_of_mem_set hw with hw | hw
            · exact hinv w hw
            · have hw2 := Option.some.inj hw
              subst hw2
              exact hinv b (Store.live_mem hl2)
          · have hw2 := Option.some.inj hw
            subst hw2
            simp
    · rw [if_neg hne] at hw
      exact hinv w hw
  | resize i m =>
    simp only [step] at hw
    cases hl : s.live i with
    | none => simp only [hl] at hw; exact hinv w hw
    | some v =>
      simp only [hl] at hw
      rcases List.mem_or_eq_of_mem_set hw with hw | hw
      · exact hinv w hw
      · have hw2 := Option.some.inj hw
        subst hw2
        rw [host_vector.resize_size, host_vector.resize_capacity]
        have := hinv v (Store.live_mem hl)
        split_ifs with hc
        · exact le_max_right _ _
        · omega
  | reserve i c =>
    simp only [step] at hw
    cases hl : s.live i with
    | none => simp only [hl] at hw; exact hinv w hw
    | some v =>
      simp only [hl] at hw
      rcases List.mem_or_eq_of_mem_set hw with hw | hw
      · exact hinv w hw
      · have hw2 := Option.some.inj hw
        subst hw2
        obtain ⟨hs, hk⟩ := host_vector.reserve_fields sz c v h
        rw [hs, hk]
        have := hinv v (Store.live_mem hl)
        split_ifs <;> omega
  | push_back i x =>
    simp only [step] at hw
    cases hl : s.live i with
    | none => simp only [hl] at hw; exact hinv w hw
    | some v =>
      simp only [hl] at hw
      rcases List.mem_or_eq_of_mem_set hw with hw | hw
      · exact hinv w hw
      · have hw2 := Option.some.inj hw
        subst hw2
        obtain ⟨hs, hk⟩ := host_vector.push_back_fields sz x v h
        have hle := hinv v (Store.live_mem hl)
        have hf : v._size = v._capacity → v._capacity * 2 < SIZE_MOD := by
          simp only [step_fits, hl, decide_eq_true_eq] at hfit
          exact hfit
        rw [hs, hk]
        have hadd : size_add v._size 1 ≤ v._size + 1 := Nat.mod_le _ _
        by_cases hfull : v._size = v._capacity
        · have h2 := hf hfull
          simp only [hfull, if_true] at hadd ⊢
          by_cases h0 : v._capacity = 0
          · simp only [h0, if_true] at hadd ⊢
            simp at hadd ⊢
            omega
          · simp only [h0, if_false, size_mul_of_lt h2] at hadd ⊢
            split_ifs <;> omega
        · simp only [hfull, if_false]
          omega
  | clear i =>
    simp only [step] at hw
    cases hl : s.live i with
    | none => simp only [hl] at hw; exact hinv w hw
    | some v =>
      simp only [hl] at hw
      rcases List.mem_or_eq_of_mem_set hw with hw | hw
      · exact hinv w hw
      · have hw2 := Option.some.inj hw
        subst hw2
        simp [host_vector.clear]
  | destroy i =>
    simp only [step] at hw
    cases hl : s.live i with
    | none => simp only [hl] at hw; exact hinv w hw
    | some v =>
      simp only [hl] at hw
      rcases List.mem_or_eq_of_mem_set hw with hw | hw
      · exact hinv w hw
      · simp at hw

/-- C4: `capacity() >= size()` holds in every object (destinations and moved-from sources
of moves included) of every state a program reaches from the empty store by
construction, `resize`, `reserve`, `push_back`, `clear`, move construction, move
assignment and destruction, provided no `_capacity * 2` of a `push_back` overflows. -/
theorem capacity_ge_size_reachable [Zero T] (sz : Nat) (cs : List (Cmd T)) (h : Heap T)
    (hfit : run_fits sz cs ([], h) = true) :
    ∀ v, some v ∈ (run sz cs ([], h)).1 → v.capacity ≥ v.size := by
  have main : ∀ (cs : List (Cmd T)) (st : Store T × Heap T),
      (∀ v, some v ∈ st.1 → v._size ≤ v._capacity) → run_fits sz cs st = true →
      ∀ v, some v ∈ (run sz cs st).1 → v._size ≤ v._capacity := by
    intro cs
    induction cs with
    | nil => intro st hinv _; exact hinv
    | cons c cs ih =>
      intro st hinv hfit
      simp only [run_fits, Bool.and_eq_true] at hfit
      exact ih (step sz c st) (step_keeps_size_le_capacity sz c st.1 st.2 hinv hfit.1) hfit.2
  exact main cs ([], h) (by simp) hfit

/-- C4 (witness): the sample program; its last state before the destructions holds three
objects. -/
theorem capacity_ge_size_reachable_witness :
    run_fits 4 sample_program ([], sample_heap) = true ∧
    ∀ v, some v ∈ (run 4 sample_program ([], sample_heap)).1 → v.capacity ≥ v.size :=
  ⟨by decide, capacity_ge_size_reachable 4 sample_program sample_heap (by decide)⟩

end cudf.detail

/-! ## Allocation discipline -/

namespace cudf.detail

variable {T : Type}

@[simp] theorem Heap.poison_log (h : Heap T) : h.poison.log = h.log := rfl

@[simp] theorem Heap.poison_next (h : Heap T) : h.poison.next = h.next := rfl

@[simp] theorem Region.written_log (r : Region T) (res : Option (List T)) (h : Heap T) :
    (r.written res h).2.log = h.log := by
  cases res <;> rfl

@[simp] theorem Region.written_next (r : Region T) (res : Option (List T)) (h : Heap T) :
    (r.written res h).2.next = h.next := by
  cases res <;> rfl

@[simp] theorem Region.written_addr (r : Region T) (res : Option (List T)) (h : Heap T) :
    (r.written res h).1.addr = r.addr := by
  cases res <;> rfl

/-- The calls `resize` makes and the region the buffer holds afterwards. -/
theorem host_vector.resize_effect [Zero T] (sz m : Nat) (v : cudf.detail.host_vector T) (h : Heap T) :
    (v.resize sz m h).2.next = (if m > v._capacity then h.next + 1 else h.next) ∧
    (v.resize sz m h).2.log =
      (if m > v._capacity then
        (match v._data with
         | some d => [Event.deallocate_async v._mr d.addr (size_mul v._size sz) v._stream]
         | none => []) ++
        [Event.synchronize v._stream,
         Event.allocate_async v._mr (size_mul (max (size_mul v._capacity 2) m) sz) v._stream
           h.next] ++ h.log
       else h.log) ∧
    (v.resize sz m h).1.data = (if m > v._capacity then some h.next else v.data) := by
  unfold host_vector.resize
  by_cases hc : m > v._capacity
  · simp only [hc, if_true]
    cases hd : v._data <;> simp only [] <;> split_ifs <;>
      simp [host_vector.data, allocate_async, synchronize, deallocate_async]
  · simp only [hc, if_false]
    cases hd : v._data <;> simp only [] <;> split_ifs <;> simp [host_vector.data, hd]

theorem host_vector.reserve_effect (sz c : Nat) (v : cudf.detail.host_vector T) (h : Heap T) :
    (v.reserve sz c h).2.next = (if c > v._capacity then h.next + 1 else h.next) ∧
    (v.reserve sz c h).2.log =
      (if c > v._capacity then
        (match v._data with
         | some d => [Event.deallocate_async v._mr d.addr (size_mul v._size sz) v._stream]
         | none => []) ++
        [Event.synchronize v._stream,
         Event.allocate_async v._mr (size_mul c sz) v._stream h.next] ++ h.log
       else h.log) ∧
    (v.reserve sz c h).1.data = (if c > v._capacity then some h.next else v.data) := by
  unfold host_vector.reserve
  by_cases hc : c > v._capacity
  · simp only [hc, if_true]
    cases hd : v._data with
    | none => simp [host_vector.data, allocate_async, synchronize, deallocate_async]
    | some d =>
      simp only [copy]
      split_ifs <;>
        simp [host_vector.data, allocate_async, synchronize, deallocate_async,
          Region.written, Heap.poison]
  · simp [hc]

theorem host_vector.push_back_effect (sz : Nat) (x : Ref T) (v : cudf.detail.host_vector T)
    (h : Heap T) :
    (v.push_back sz x h).2.next =
      (if v._size = v._capacity then
        (v.reserve sz (if v._capacity = 0 then 2 else size_mul v._capacity 2) h).2.next
       else h.next) ∧
    (v.push_back sz x h).2.log =
      (if v._size = v._capacity then
        (v.reserve sz (if v._capacity = 0 then 2 else size_mul v._capacity 2) h).2.log
       else h.log) ∧
    (v.push_back sz x h).1.data =
      (if v._size = v._capacity then
        (v.reserve sz (if v._capacity = 0 then 2 else size_mul v._capacity 2) h).1.data
       else v.data) := by
  obtain ⟨-, -, hd, -, -, -, hl, hn, -⟩ := host_vector.push_back_parts sz x v h _ rfl
  rw [hd, hl, hn]
  by_cases hfull : v._size = v._capacity
  · simp [hfull]
  · simp [hfull]

theorem allocations_cons (a : Nat) (e : Event) (log : List Event) :
    allocations a (e :: log) = allocations a log + (if e.allocated = some a then 1 else 0) := by
  simp [allocations, List.countP_cons]

theorem deallocations_cons (a : Nat) (e : Event) (log : List Event) :
    deallocations a (e :: log) = deallocations a log + (if e.released = some a then 1 else 0) := by
  simp [deallocations, List.countP_cons]

end cudf.detail

/-! ## Appends of values and of the buffer's own elements -/

namespace cudf.detail.host_vector

variable {T : Type}

/-- C3 (wrap-around): a full buffer of `2^60` 8-byte elements, all zero.  `push_back`
reserves `2^61` elements, that is `2^61 * 8 mod 2^64 = 0` bytes, so the copy and the
store fall outside the new region: afterwards element 0 no longer reads as before. -/
theorem push_back_claim_fails_when_bytes_wrap :
    WF 8 (host_vector 8 1152921504606846976 1 false 0 sample_heap).1 ∧
    (host_vector 8 1152921504606846976 1 false 0 sample_heap).1.index 0 = some 0 ∧
    ¬ ((push_back_all 8 [1] (host_vector 8 1152921504606846976 1 false 0 sample_heap).1
          (host_vector 8 1152921504606846976 1 false 0 sample_heap).2).1.index 0
        = (host_vector 8 1152921504606846976 1 false 0 sample_heap).1.index 0) := by
  have hn : 1152921504606846976 * 8 < SIZE_MOD := by decide
  have heq := constructor_eq 8 1152921504606846976 1 false 0 sample_heap (by decide) hn
    (by decide)
  have hidx : (host_vector 8 1152921504606846976 1 false 0 sample_heap).1.index 0 = some 0 := by
    rw [heq, index_eq_cells]
    show (List.replicate 1152921504606846976 (0 : Nat))[0]? = some 0
    rw [List.getElem?_replicate]
    decide
  refine ⟨?_, hidx, ?_⟩
  · rw [heq]
    exact ⟨List.length_replicate _ _, le_refl _, hn⟩
  · have hw := push_back_wraps 1152921504606846976 1 false 0 (1 : Nat) sample_heap hn
      (by decide) (by decide) (by decide)
    rw [push_back_all_singleton, hw, hidx]
    exact fun hc => by cases hc

end cudf.detail.host_vector

namespace cudf.detail

variable {T : Type}

theorem ledger_congr {log : List Event} {next : Nat} {H H' : Nat → Nat}
    (hok : ledger_ok log next H) (hH : ∀ a, H' a = H a) : ledger_ok log next H' := by
  obtain ⟨h1, h2, h3, h4⟩ := hok
  exact ⟨fun a => by rw [hH a]; exact h1 a, h2, h3, h4⟩

theorem ledger_synchronize {log : List Event} {next : Nat} {H : Nat → Nat}
    (hok : ledger_ok log next H) (stream : Nat) :
    ledger_ok (Event.synchronize stream :: log) next H := by
  obtain ⟨h1, h2, h3, h4⟩ := hok
  refine ⟨fun a => ?_, fun a => ?_, fun a ha => ?_, ?_⟩
  · simpa [allocations_cons, deallocations_cons, Event.allocated, Event.released] using h1 a
  · simpa [allocations_cons, Event.allocated] using h2 a
  · simpa [allocations_cons, Event.allocated] using h3 a ha
  · exact ⟨by simp [Event.released], h4⟩

theorem ledger_allocate {log : List Event} {next : Nat} {H H' : Nat → Nat}
    (hok : ledger_ok log next H) (hH : ∀ a, H' a = H a + (if a = next then 1 else 0))
    (mr bytes stream : Nat) :
    ledger_ok (Event.allocate_async mr bytes stream next :: log) (next + 1) H' := by
  obtain ⟨h1, h2, h3, h4⟩ := hok
  refine ⟨fun a => ?_, fun a => ?_, fun a ha => ?_, ?_⟩
  · have := h1 a
    simp only [allocations_cons, deallocations_cons, Event.allocated, Event.released, hH a,
      Option.some.injEq]
    by_cases hn : a = next
    · simp [hn] at this ⊢
      omega
    · have hn2 : ¬ next = a := fun e => hn e.symm
      simp [hn, hn2] at this ⊢
      omega
  · simp only [allocations_cons, Event.allocated, Option.some.injEq]
    by_cases hn : next = a
    · have := h3 a (by omega)
      simp [hn, this]
    · have := h2 a
      simp [hn, this]
  · simp only [allocations_cons, Event.allocated, Option.some.injEq]
    have hn : ¬ next = a := by omega
    have := h3 a (by omega)
    simp [hn, this]
  · exact ⟨by simp [Event.released], h4⟩

theorem ledger_deallocate {log : List Event} {next : Nat} {H H' : Nat → Nat}
    (hok : ledger_ok log next H) (x : Nat) (hx : 1 ≤ H x)
    (hH : ∀ a, H' a + (if a = x then 1 else 0) = H a) (mr bytes stream : Nat) :
    ledger_ok (Event.deallocate_async mr x bytes stream :: log) next H' := by
  obtain ⟨h1, h2, h3, h4⟩ := hok
  refine ⟨fun a => ?_, fun a => ?_, fun a ha => ?_, ?_⟩
  · have := h1 a
    have := hH a
    simp only [allocations_cons, deallocations_cons, Event.allocated, Event.released,
      Option.some.injEq]
    by_cases hn : a = x
    · simp [hn] at *
      omega
    · have hn2 : ¬ x = a := fun e => hn e.symm
      simp [hn, hn2] at *
      omega
  · simpa [allocations_cons, Event.allocated] using h2 a
  · simpa [allocations_cons, Event.allocated] using h3 a ha
  · refine ⟨?_, h4⟩
    have := h1 x
    simp only [Event.released]
    omega

theorem held_count_append (a : Nat) (s : Store T) (o : Option (host_vector T)) :
    held_count a (s ++ [o]) = held_count a s + holds a o := by
  simp [held_count]

theorem held_count_set (a : Nat) (s : Store T) (i : Nat) (o o' : Option (host_vector T))
    (hi : s[i]? = some o) :
    held_count a (s.set i o') + holds a o = held_count a s + holds a o' := by
  induction s generalizing i with
  | nil => simp at hi
  | cons y ys ih =>
    cases i with
    | zero =>
      have : y = o := by simpa using hi
      subst this
      simp [held_count]
      omega
    | succ j =>
      have hj : ys[j]? = some o := by simpa using hi
      have := ih j hj
      simp only [held_count, List.set_cons_succ, List.map_cons, List.sum_cons] at this ⊢
      omega

theorem Store.live_getElem? {s : Store T} {i : Nat} {v : host_vector T}
    (hl : s.live i = some v) : s[i]? = some (some v) := by
  unfold Store.live at hl
  cases hi : s[i]? with
  | none => simp [hi] at hl
  | some o =>
    simp only [hi, Option.join] at hl
    have : o = some v := by simpa using hl
    rw [this]

theorem holds_some (a : Nat) (v : host_vector T) :
    holds a (some v) = if v.data = some a then 1 else 0 := rfl

theorem holds_le_held_count (a : Nat) (s : Store T) (i : Nat) (o : Option (host_vector T))
    (hi : s[i]? = some o) : holds a o ≤ held_count a s := by
  have := held_count_set a s i o none hi
  simp only [holds] at this ⊢
  omega

theorem host_vector.constructor_effect [Zero T] (sz n mr : Nat) (dev : Bool) (stream : Nat)
    (h : Heap T) :
    (host_vector.host_vector sz n mr dev stream h).2.next
      = (if n ≠ 0 then h.next + 1 else h.next) ∧
    (host_vector.host_vector sz n mr dev stream h).2.log =
      (if n ≠ 0 then
        Event.synchronize stream :: Event.allocate_async mr (size_mul n sz) stream h.next :: h.log
       else h.log) ∧
    (host_vector.host_vector sz n mr dev stream h).1.data
      = (if n ≠ 0 then some h.next else none) := by
  by_cases h0 : n = 0 <;>
    simp [host_vector.host_vector, h0, host_vector.data, allocate_async, synchronize]

theorem host_vector.destroy_effect (sz : Nat) (v : cudf.detail.host_vector T) (h : Heap T) :
    (v.destroy sz h).next = h.next ∧
    (v.destroy sz h).log =
      (match v._data with
       | some d => [Event.deallocate_async v._mr d.addr (size_mul v._size sz) v._stream]
       | none => []) ++ h.log := by
  unfold host_vector.destroy
  cases v._data <;> simp [deallocate_async]

theorem ite_some_eq (x a : Nat) :
    (if some x = some a then 1 else 0) = (if a = x then 1 else 0) := by
  by_cases hx : a = x
  · simp [hx]
  · have : ¬ x = a := fun e => hx e.symm
    simp [hx, this]

theorem ite_none_eq (a : Nat) : (if (none : Option Nat) = some a then 1 else 0) = 0 := by
  simp

theorem host_vector.data_of_some {v : cudf.detail.host_vector T} {d : Region T}
    (hd : v._data = some d) : v.data = some d.addr := by
  simp [host_vector.data, hd]

theorem host_vector.data_of_none {v : cudf.detail.host_vector T} (hd : v._data = none) :
    v.data = none := by
  simp [host_vector.data, hd]

/-- Replacing an object by one that holds the same region keeps the bookkeeping. -/
theorem ledger_keep {s : Store T} {h : Heap T} {i : Nat} {v v' : host_vector T}
    (hl : s.live i = some v) (hok : ledger_ok h.log h.next (fun a => held_count a s))
    (hd : v'.data = v.data) :
    ledger_ok h.log h.next (fun a => held_count a (s.set i (some v'))) := by
  refine ledger_congr hok (fun a => ?_)
  have := held_count_set a s i (some v) (some v') (Store.live_getElem? hl)
  simp only [holds_some, hd] at this
  omega

/-- Releasing the region an object holds, the object then holding none. -/
theorem ledger_release {s : Store T} {h : Heap T} {i : Nat} {v : host_vector T}
    (o' : Option (host_vector T)) (hl : s.live i = some v)
    (hok : ledger_ok h.log h.next (fun a => held_count a s)) (ho : ∀ a, holds a o' = 0)
    (bytes : Nat) :
    ledger_ok
      ((match v._data with
        | some d => [Event.deallocate_async v._mr d.addr bytes v._stream]
        | none => []) ++ h.log) h.next (fun a => held_count a (s.set i o')) := by
  have hset := fun a => held_count_set a s i (some v) o' (Store.live_getElem? hl)
  cases hd : v._data with
  | none =>
    refine ledger_congr hok (fun a => ?_)
    have := hset a
    rw [holds_some, host_vector.data_of_none hd, ite_none_eq, ho a] at this
    simpa using this
  | some d =>
    refine ledger_deallocate hok d.addr ?_ (fun a => ?_) _ _ _
    · have := holds_le_held_count d.addr s i (some v) (Store.live_getElem? hl)
      rw [holds_some, host_vector.data_of_some hd] at this
      simpa using this
    · have := hset a
      rw [holds_some, host_vector.data_of_some hd, ite_some_eq, ho a] at this
      show held_count a (s.set i o') + _ = held_count a s
      omega

/-- Reallocating: a fresh region is handed out to the object and the one it held, if
any, is released afterwards. -/
theorem ledger_realloc {s : Store T} {h : Heap T} {i : Nat} {v v' : host_vector T}
    (hl : s.live i = some v) (hok : ledger_ok h.log h.next (fun a => held_count a s))
    (hd : v'.data = some h.next) (bytes mr b st st' : Nat) :
    ledger_ok
      ((match v._data with
        | some d => [Event.deallocate_async v._mr d.addr bytes v._stream]
        | none => []) ++
        [Event.synchronize st, Event.allocate_async mr b st' h.next] ++ h.log)
      (h.next + 1) (fun a => held_count a (s.set i (some v'))) := by
  have hset := fun a => held_count_set a s i (some v) (some v') (Store.live_getElem? hl)
  have h1 : ledger_ok (Event.synchronize st :: Event.allocate_async mr b st' h.next :: h.log)
      (h.next + 1) (fun a => held_count a s + (if a = h.next then 1 else 0)) :=
    ledger_synchronize (ledger_allocate hok (fun _ => rfl) mr b st') st
  cases hv : v._data with
  | none =>
    refine ledger_congr h1 (fun a => ?_)
    have := hset a
    rw [holds_some, holds_some, host_vector.data_of_none hv, ite_none_eq, hd,
      ite_some_eq] at this
    simpa using this
  | some d =>
    refine ledger_deallocate h1 d.addr ?_ (fun a => ?_) _ _ _
    · have := holds_le_held_count d.addr s i (some v) (Store.live_getElem? hl)
      rw [holds_some, host_vector.data_of_some hv] at this
      have h2 : 1 ≤ held_count d.addr s := by simpa using this
      show 1 ≤ held_count d.addr s + _
      omega
    · have := hset a
      rw [holds_some, holds_some, host_vector.data_of_some hv, ite_some_eq, hd,
        ite_some_eq] at this
      show held_count a (s.set i (some v')) + _ = held_count a s + _
      omega

/-- One statement keeps the bookkeeping of regions handed out, held and released. -/
theorem step_keeps_ledger [Zero T] (sz : Nat) (c : Cmd T) (s : Store T) (h : Heap T)
    (hok : ledger_ok h.log h.next (fun a => held_count a s)) :
    ledger_ok (step sz c (s, h)).2.log (step sz c (s, h)).2.next
      (fun a => held_count a (step sz c (s, h)).1) := by
  cases c with
  | construct n mr dev stream =>
    obtain ⟨hn, hlg, hd⟩ := host_vector.constructor_effect sz n mr dev stream h
    simp only [step]
    rw [hn, hlg]
    by_cases h0 : n = 0
    · simp only [h0, ne_eq, not_true_eq_false, if_false] at hd ⊢
      refine ledger_congr hok (fun a => ?_)
      rw [held_count_append, holds_some, hd, ite_none_eq]
      rfl
    · simp only [ne_eq, h0, not_false_eq_true, if_true] at hd ⊢
      refine ledger_synchronize (ledger_allocate hok (fun a => ?_) _ _ _) _
      rw [held_count_append, holds_some, hd, ite_some_eq]
  | move_construct src ind =>
    simp only [step]
    cases hl : s.live src with
    | none => exact hok
    | some o =>
      simp only [host_vector.host_vector_move]
      refine ledger_congr hok (fun a => ?_)
      have := held_count_set a s src (some o)
        (some { o with _data := none, _size := 0, _capacity := 0 }) (Store.live_getElem? hl)
      rw [held_count_append]
      simp only [holds_some, host_vector.data, Option.map_none'] at this ⊢
      rw [ite_none_eq] at this
      omega
  | move_assign dst src =>
    simp only [step]
    by_cases hne : dst ≠ src
    · rw [if_pos hne]
      cases hl1 : s.live dst with
      | none => exact hok
      | some a1 =>
        cases hl2 : s.live src with
        | none => exact hok
        | some b1 =>
          simp only [host_vector.operator_assign]
          have hrel := ledger_release (some { a1 with _data := none }) hl1 hok
            (fun a => by rw [holds_some]; simp [host_vector.data]) (size_mul a1._size sz)
          have hlog : (match a1._data with
              | some d => deallocate_async a1._mr d.addr (size_mul a1._size sz) a1._stream h
              | none => h).log =
              (match a1._data with
               | some d => [Event.deallocate_async a1._mr d.addr (size_mul a1._size sz)
                   a1._stream]
               | none => []) ++ h.log := by
            cases a1._data <;> simp [deallocate_async]
          have hnext : (match a1._data with
              | some d => deallocate_async a1._mr d.addr (size_mul a1._size sz) a1._stream h
              | none => h).next = h.next := by
            cases a1._data <;> simp [deallocate_async]
          rw [hlog, hnext]
          refine ledger_congr hrel (fun a => ?_)
          have hsrc : (s.set dst (some
              { a1 with _data := b1._data, _size := b1._size, _capacity := b1._capacity,
                        _mr := b1._mr, _stream := b1._stream }))[src]? = some (some b1) := by
            rw [List.getElem?_set_ne hne]
            exact Store.live_getElem? hl2
          have e1 := held_count_set a _ src (some b1)
            (some { b1 with _data := none, _size := 0, _capacity := 0 }) hsrc
          have e2 := held_count_set a s dst (some a1)
            (some { a1 with _data := b1._data, _size := b1._size, _capacity := b1._capacity,
                            _mr := b1._mr, _stream := b1._stream })
            (Store.live_getElem? hl1)
          have e3 := held_count_set a s dst (some a1) (some { a1 with _data := none })
            (Store.live_getElem? hl1)
          simp only [holds_some, host_vector.data, Option.map_none'] at e1 e2 e3 ⊢
          rw [ite_none_eq] at e1 e3
          omega
    · rw [if_neg hne]
      exact hok
  | resize i m =>
    simp only [step]
    cases hl : s.live i with
    | none => exact hok
    | some v =>
      obtain ⟨hn, hlg, hd⟩ := host_vector.resize_effect sz m v h
      simp only []
      rw [hn, hlg]
      by_cases hc : m > v._capacity
      · simp only [hc, if_true] at hd ⊢
        exact ledger_realloc hl hok hd _ _ _ _ _
      · simp only [hc, if_false] at hd ⊢
        exact ledger_keep hl hok hd
  | reserve i c =>
    simp only [step]
    cases hl : s.live i with
    | none => exact hok
    | some v =>
      obtain ⟨hn, hlg, hd⟩ := host_vector.reserve_effect sz c v h
      simp only []
      rw [hn, hlg]
      by_cases hc : c > v._capacity
      · simp only [hc, if_true] at hd ⊢
        exact ledger_realloc hl hok hd _ _ _ _ _
      · simp only [hc, if_false] at hd ⊢
        exact ledger_keep hl hok hd
  | push_back i x =>
    simp only [step]
    cases hl : s.live i with
    | none => exact hok
    | some v =>
      obtain ⟨hn, hlg, hd⟩ := host_vector.push_back_effect sz x v h
      obtain ⟨hn2, hlg2, hd2⟩ := host_vector.reserve_effect sz
        (if v._capacity = 0 then 2 else size_mul v._capacity 2) v h
      simp only []
      rw [hn, hlg]
      by_cases hfull : v._size = v._capacity
      · simp only [hfull, if_true] at hd ⊢
        rw [hn2, hlg2]
        rw [hd2] at hd
        by_cases hc : (if v._capacity = 0 then 2 else size_mul v._capacity 2) > v._capacity
        · rw [if_pos hc] at hd ⊢
          rw [if_pos hc]
          exact ledger_realloc hl hok hd _ _ _ _ _
        · rw [if_neg hc] at hd ⊢
          rw [if_neg hc]
          exact ledger_keep hl hok hd
      · simp only [hfull, if_false] at hd ⊢
        exact ledger_keep hl hok hd
  | clear i =>
    simp only [step]
    cases hl : s.live i with
    | none => exact hok
    | some v => exact ledger_keep hl hok rfl
  | destroy i =>
    simp only [step]
    cases hl : s.live i with
    | none => exact hok
    | some v =>
      obtain ⟨hn, hlg⟩ := host_vector.destroy_effect sz v h
      simp only []
      rw [hn, hlg]
      exact ledger_release none hl hok (fun a => rfl) _

theorem held_count_of_all_destroyed (a : Nat) (s : Store T) (hs : ∀ o ∈ s, o = none) :
    held_count a s = 0 := by
  induction s with
  | nil => rfl
  | cons y ys ih =>
    have hy : y = none := hs y (List.mem_cons_self _ _)
    have := ih (fun o ho => hs o (List.mem_cons_of_mem _ ho))
    simp only [held_count, List.map_cons, List.sum_cons] at this ⊢
    rw [this, hy]
    rfl

theorem run_keeps_ledger [Zero T] (sz : Nat) (cs : List (Cmd T)) (st : Store T × Heap T)
    (hok : ledger_ok st.2.log st.2.next (fun a => held_count a st.1)) :
    ledger_ok (run sz cs st).2.log (run sz cs st).2.next
      (fun a => held_count a (run sz cs st).1) := by
  induction cs generalizing st with
  | nil => exact hok
  | cons c cs ih => exact ih (step sz c st) (step_keeps_ledger sz c st.1 st.2 hok)

/-- C5: over any program of constructions, `resize`, `reserve`, `push_back`, `clear`,
moves and destructions that starts with no buffer and no call made and ends with every
buffer destroyed, every region handed out by `allocate_async` is handed out once and
passed to `deallocate_async` exactly once, and each release is of a region that was
handed out before and not released since. -/
theorem each_region_released_exactly_once [Zero T] (sz : Nat) (cs : List (Cmd T))
    (h : Heap T) (hstart : h.log = [])
    (hend : ∀ o ∈ (run sz cs ([], h)).1, o = none) :
    (∀ a, allocations a (run sz cs ([], h)).2.log ≤ 1 ∧
      deallocations a (run sz cs ([], h)).2.log = allocations a (run sz cs ([], h)).2.log) ∧
    releases_held (run sz cs ([], h)).2.log := by
  have h0 : ledger_ok h.log h.next (fun a => held_count a ([] : Store T)) := by
    rw [hstart]
    exact ⟨fun a => rfl, fun a => Nat.zero_le _, fun a _ => rfl, trivial⟩
  obtain ⟨h1, h2, -, h4⟩ := run_keeps_ledger sz cs ([], h) h0
  refine ⟨fun a => ⟨h2 a, ?_⟩, h4⟩
  have := h1 a
  simp only [held_count_of_all_destroyed a _ hend] at this
  omega

/-- C5 (witness): the sample program makes five allocations and releases each once. -/
theorem each_region_released_exactly_once_witness :
    (sample_heap.log = [] ∧ (∀ o ∈ (run 4 sample_program ([], sample_heap)).1, o = none) ∧
      ((run 4 sample_program ([], sample_heap)).2.log.filterMap Event.allocated).length = 5) ∧
    (∀ a, allocations a (run 4 sample_program ([], sample_heap)).2.log ≤ 1 ∧
      deallocations a (run 4 sample_program ([], sample_heap)).2.log
        = allocations a (run 4 sample_program ([], sample_heap)).2.log) ∧
    releases_held (run 4 sample_program ([], sample_heap)).2.log :=
  ⟨⟨rfl, by decide, by decide⟩,
   each_region_released_exactly_once 4 sample_program sample_heap rfl (by decide)⟩

/-! ## Ownership transfer -/

theorem Store.live_lt {s : Store T} {i : Nat} {v : host_vector T}
    (hl : s.live i = some v) : i < s.length := by
  have := Store.live_getElem? hl
  by_contra hlt
  rw [List.getElem?_eq_none (by omega)] at this
  cases this

theorem Store.live_set_same (s : Store T) (i : Nat) (o : Option (host_vector T))
    (hi : i < s.length) : Store.live (s.set i o) i = o := by
  simp [Store.live, List.getElem?_set, hi]

theorem Store.live_set_ne (s : Store T) (i j : Nat) (o : Option (host_vector T))
    (hne : i ≠ j) : Store.live (s.set i o) j = s.live j := by
  simp [Store.live, List.getElem?_set_ne hne]

theorem Store.live_append_length (s : Store T) (o : Option (host_vector T)) :
    Store.live (s ++ [o]) s.length = o := by
  simp [Store.live]

/-- C6: after moving buffer A into B, by move construction (B is the new object; A may be
the only buffer of the program) or by move assignment into any other object B, B has the
size, capacity, backing region with its contents, resource and stream A had; A reports
size 0 and capacity 0 and holds no region, so that destroying A afterwards makes no call
to the resource. -/
theorem move_transfers_ownership [Zero T] (sz : Nat) (s : Store T) (h : Heap T)
    (src : Nat) (ind : Bool) (A : host_vector T) (hA : s.live src = some A) :
    (∃ B1 A1 : host_vector T,
      Store.live (step sz (Cmd.move_construct src ind) (s, h)).1 s.length = some B1 ∧
      Store.live (step sz (Cmd.move_construct src ind) (s, h)).1 src = some A1 ∧
      (step sz (Cmd.move_construct src ind) (s, h)).2 = h ∧
      B1.size = A.size ∧ B1.capacity = A.capacity ∧ B1._data = A._data ∧
      (∀ i, B1.index i = A.index i) ∧
      B1.memory_resource = A.memory_resource ∧ B1.stream = A.stream ∧
      A1.size = 0 ∧ A1.capacity = 0 ∧ A1.data = none ∧ (∀ h1, A1.destroy sz h1 = h1)) ∧
    (∀ (dst : Nat) (B : host_vector T), dst ≠ src → s.live dst = some B →
      ∃ B1 A1 : host_vector T,
        Store.live (step sz (Cmd.move_assign dst src) (s, h)).1 dst = some B1 ∧
        Store.live (step sz (Cmd.move_assign dst src) (s, h)).1 src = some A1 ∧
        B1.size = A.size ∧ B1.capacity = A.capacity ∧ B1._data = A._data ∧
        (∀ i, B1.index i = A.index i) ∧
        B1.memory_resource = A.memory_resource ∧ B1.stream = A.stream ∧
        A1.size = 0 ∧ A1.capacity = 0 ∧ A1.data = none ∧
        (∀ h1, A1.destroy sz h1 = h1)) := by
  have hsrc := Store.live_lt hA
  constructor
  · refine ⟨(host_vector.host_vector_move A ind).1, (host_vector.host_vector_move A ind).2,
      ?_, ?_, ?_, rfl, rfl, rfl, fun i => rfl, rfl, rfl, rfl, rfl, rfl, fun h1 => rfl⟩
    · simp only [step, hA]
      have hlen : (s.set src (some (host_vector.host_vector_move A ind).2)).length = s.length :=
        List.length_set _ _ _
      rw [← hlen]
      exact Store.live_append_length _ _
    · simp only [step, hA]
      simp [Store.live, List.getElem?_append_left, hsrc, List.getElem?_set]
    · simp only [step, hA]
  · intro dst B hne hB
    have hdst := Store.live_lt hB
    refine ⟨(host_vector.operator_assign sz B A h).1, (host_vector.operator_assign sz B A h).2.1,
      ?_, ?_, rfl, rfl, rfl, fun i => rfl, rfl, rfl, rfl, rfl, rfl, fun h1 => rfl⟩
    · simp only [step, if_pos hne, hA, hB]
      rw [Store.live_set_ne _ _ _ _ (Ne.symm hne)]
      exact Store.live_set_same _ _ _ hdst
    · simp only [step, if_pos hne, hA, hB]
      exact Store.live_set_same _ _ _ (by rw [List.length_set]; exact hsrc)

/-- C6 (witness): move construction from the only buffer `[5, 6, 7]` of `sample_single`,
and move assignment in `sample_pair`, where slot 0 holds `[5, 6, 7]` and slot 1 two
zeros. -/
theorem move_transfers_ownership_witness :
    ((Store.live sample_single.1 0).map host_vector.elements = some [5, 6, 7] ∧
      sample_single.1.length = 1) ∧
    (∃ B1 A1 : host_vector Nat,
      Store.live (step 4 (Cmd.move_construct 0 false) sample_single).1 1 = some B1 ∧
      Store.live (step 4 (Cmd.move_construct 0 false) sample_single).1 0 = some A1 ∧
      B1.elements = [5, 6, 7] ∧ A1.size = 0 ∧ A1.capacity = 0 ∧ A1.data = none) ∧
    (1 ≠ 0 ∧ (Store.live sample_pair.1 0).map host_vector.elements = some [5, 6, 7] ∧
      (Store.live sample_pair.1 1).map host_vector.elements = some [0, 0]) ∧
    ∃ B1 A1 : host_vector Nat,
      Store.live (step 4 (Cmd.move_assign 1 0) sample_pair).1 1 = some B1 ∧
      Store.live (step 4 (Cmd.move_assign 1 0) sample_pair).1 0 = some A1 ∧
      B1.elements = [5, 6, 7] ∧ A1.size = 0 ∧ A1.capacity = 0 ∧ A1.data = none :=
  ⟨⟨by decide, by decide⟩,
   match (move_transfers_ownership 4 sample_single.1 sample_single.2 0 false
      ((Store.live sample_single.1 0).get (by decide)) (by decide)).1 with
   | ⟨B1, A1, h1, h2, _, h3, _, h5, _, _, _, h9, h10, h11, _⟩ =>
     ⟨B1, A1, h1, h2, by
        have e : B1.elements = ((Store.live sample_single.1 0).get (by decide)).elements := by
          simp only [host_vector.elements, host_vector.cells, h5, host_vector.size] at h3 ⊢
          rw [h3]
        rw [e]
        decide, h9, h10, h11⟩,
   ⟨by decide, by decide, by decide⟩,
   match (move_transfers_ownership 4 sample_pair.1 sample_pair.2 0 false
      ((Store.live sample_pair.1 0).get (by decide)) (by decide)).2 1
      ((Store.live sample_pair.1 1).get (by decide)) (by decide) (by decide) with
   | ⟨B1, A1, h1, h2, h3, _, h5, _, _, _, h9, h10, h11, _⟩ =>
     ⟨B1, A1, h1, h2, by
        have e : B1.elements = ((Store.live sample_pair.1 0).get (by decide)).elements := by
          simp only [host_vector.elements, host_vector.cells, h5, host_vector.size] at h3 ⊢
          rw [h3]
        rw [e]
        decide, h9, h10, h11⟩⟩

/-! ## Allocator selector -/

/-- C7 (amended): when the requested byte size `size * sizeof(T)` fits in `size_t`,
`get_host_allocator<T>(size, stream)` returns the pinned resource exactly when that byte
size is at most the pinned threshold, and the pageable resource otherwise, always with
the given stream; byte sizes `threshold - 1`, `threshold` and `threshold + 1` select
pinned, pinned and pageable. -/
theorem get_host_allocator_spec (sz size stream threshold : Nat)
    (hno : size * sz < SIZE_MOD) :
    ((get_host_allocator sz size stream threshold).mr = host_memory_resource.pinned ↔
      size * sz ≤ threshold) ∧
    ((get_host_allocator sz size stream threshold).mr = host_memory_resource.pageable ↔
      threshold < size * sz) ∧
    (get_host_allocator sz size stream threshold).stream = stream ∧
    (size * sz + 1 = threshold →
      (get_host_allocator sz size stream threshold).mr = host_memory_resource.pinned) ∧
    (size * sz = threshold →
      (get_host_allocator sz size stream threshold).mr = host_memory_resource.pinned) ∧
    (size * sz = threshold + 1 →
      (get_host_allocator sz size stream threshold).mr = host_memory_resource.pageable) := by
  unfold get_host_allocator
  rw [size_mul_of_lt hno]
  refine ⟨?_, ?_, ?_, ?_, ?_, ?_⟩
  · split_ifs with hc <;> simp [hc]
  · split_ifs with hc
    · simp; omega
    · simp; omega
  · split_ifs <;> rfl
  · intro he
    rw [if_pos (by omega)]
  · intro he
    rw [if_pos (by omega)]
  · intro he
    rw [if_neg (by omega)]

/-- C7 (counterexample): `2^61` eight-byte elements and `2^62` four-byte elements are
requests of `2^64` bytes, above a threshold of 4096 bytes, yet the pinned resource is
selected: the product the function compares is 0 in `size_t`. -/
theorem get_host_allocator_claim_fails_when_product_wraps :
    ¬ (2305843009213693952 * 8 ≤ 4096) ∧
    (get_host_allocator 8 2305843009213693952 0 4096).mr = host_memory_resource.pinned ∧
    ¬ (4611686018427387904 * 4 ≤ 4096) ∧
    (get_host_allocator 4 4611686018427387904 0 4096).mr = host_memory_resource.pinned := by
  decide

/-- C7 (boundary values): with a threshold of 4096 bytes, one-byte elements and sizes
4095, 4096, 4097 select pinned, pinned, pageable; so do 1024 and 1025 four-byte elements
for the last two. -/
theorem get_host_allocator_spec_witness :
    (4095 * 1 < SIZE_MOD ∧ 1025 * 4 < SIZE_MOD) ∧
    (get_host_allocator 1 4095 0 4096).mr = host_memory_resource.pinned ∧
    (get_host_allocator 1 4096 0 4096).mr = host_memory_resource.pinned ∧
    (get_host_allocator 1 4097 0 4096).mr = host_memory_resource.pageable ∧
    (get_host_allocator 4 1024 0 4096).mr = host_memory_resource.pinned ∧
    (get_host_allocator 4 1025 0 4096).mr = host_memory_resource.pageable :=
  ⟨⟨by decide, by decide⟩,
   (get_host_allocator_spec 1 4095 0 4096 (by decide)).2.2.2.1 (by decide),
   (get_host_allocator_spec 1 4096 0 4096 (by decide)).2.2.2.2.1 (by decide),
   (get_host_allocator_spec 1 4097 0 4096 (by decide)).2.2.2.2.2 (by decide),
   (get_host_allocator_spec 4 1024 0 4096 (by decide)).2.2.2.2.1 (by decide),
   ((get_host_allocator_spec 4 1025 0 4096 (by decide)).2.1).2 (by decide)⟩

end cudf.detail

/-! ## Environment policies -/

namespace cudf.io.detail

theorem cufile_get_env_policy_eq (p : Process) :
    cufile_integration.get_env_policy p =
      (cufile_integration.policy_of (Policy.cufile.resolved p), Policy.cufile.initialise p) := by
  unfold cufile_integration.get_env_policy Policy.initialise Policy.resolved Policy.env_val
    cufile_integration.get_env_policy getenv_or
  cases h1 : p.cufile_env_val with
  | some v => simp
  | none => cases h2 : p.environ "LIBCUDF_CUFILE_POLICY" <;>
      simp [h2, Policy.variable, Policy.default_val]

theorem cufile_get_env_policy_of_some (p : Process) (v : String)
    (h : p.cufile_env_val = some v) :
    cufile_integration.get_env_policy p = (cufile_integration.policy_of v, p) := by
  simp [cufile_integration.get_env_policy, h]

theorem cufile_initialise_env_val (p : Process) :
    (Policy.cufile.initialise p).cufile_env_val = some (Policy.cufile.resolved p) := by
  unfold Policy.initialise Policy.resolved Policy.env_val cufile_integration.get_env_policy
    getenv_or
  cases h1 : p.cufile_env_val with
  | some v => simp [h1]
  | none => cases h2 : p.environ "LIBCUDF_CUFILE_POLICY" <;>
      simp [h2, Policy.variable, Policy.default_val]

theorem cufile_integration.is_always_enabled_eq (p : Process) :
    cufile_integration.is_always_enabled p =
      ((cufile_integration.policy_of (Policy.cufile.resolved p)).map
        (fun x => decide (x = cufile_integration.usage_policy.ALWAYS)),
       Policy.cufile.initialise p) := by
  simp [cufile_integration.is_always_enabled, cufile_get_env_policy_eq]

theorem cufile_integration.is_kvikio_enabled_eq (p : Process) :
    cufile_integration.is_kvikio_enabled p =
      ((cufile_integration.policy_of (Policy.cufile.resolved p)).map
        (fun x => decide (x = cufile_integration.usage_policy.KVIKIO)),
       Policy.cufile.initialise p) := by
  simp [cufile_integration.is_kvikio_enabled, cufile_get_env_policy_eq]

theorem cufile_integration.is_gds_enabled_eq (p : Process) :
    cufile_integration.is_gds_enabled p =
      ((cufile_integration.policy_of (Policy.cufile.resolved p)).map
        (fun x => decide (x = cufile_integration.usage_policy.ALWAYS ∨
          x = cufile_integration.usage_policy.GDS)),
       Policy.cufile.initialise p) := by
  unfold cufile_integration.is_gds_enabled
  rw [cufile_integration.is_always_enabled_eq]
  have h2 := cufile_get_env_policy_of_some _ _
    (cufile_initialise_env_val p)
  cases hp : cufile_integration.policy_of (Policy.cufile.resolved p) with
  | error e => simp [Except.map]
  | ok x => cases x <;> simp [Except.map, h2, hp]

theorem nvcomp_get_env_policy_eq (p : Process) :
    nvcomp_integration.get_env_policy p =
      (nvcomp_integration.policy_of (Policy.nvcomp.resolved p), Policy.nvcomp.initialise p) := by
  unfold nvcomp_integration.get_env_policy Policy.initialise Policy.resolved Policy.env_val
    nvcomp_integration.get_env_policy getenv_or
  cases h1 : p.nvcomp_env_val with
  | some v => simp
  | none => cases h2 : p.environ "LIBCUDF_NVCOMP_POLICY" <;>
      simp [h2, Policy.variable, Policy.default_val]

theorem nvcomp_get_env_policy_of_some (p : Process) (v : String)
    (h : p.nvcomp_env_val = some v) :
    nvcomp_integration.get_env_policy p = (nvcomp_integration.policy_of v, p) := by
  simp [nvcomp_integration.get_env_policy, h]

theorem nvcomp_initialise_env_val (p : Process) :
    (Policy.nvcomp.initialise p).nvcomp_env_val = some (Policy.nvcomp.resolved p) := by
  unfold Policy.initialise Policy.resolved Policy.env_val nvcomp_integration.get_env_policy
    getenv_or
  cases h1 : p.nvcomp_env_val with
  | some v => simp [h1]
  | none => cases h2 : p.environ "LIBCUDF_NVCOMP_POLICY" <;>
      simp [h2, Policy.variable, Policy.default_val]

theorem nvcomp_integration.is_all_enabled_eq (p : Process) :
    nvcomp_integration.is_all_enabled p =
      ((nvcomp_integration.policy_of (Policy.nvcomp.resolved p)).map
        (fun x => decide (x = nvcomp_integration.usage_policy.ALWAYS)),
       Policy.nvcomp.initialise p) := by
  simp [nvcomp_integration.is_all_enabled, nvcomp_get_env_policy_eq]

theorem nvcomp_integration.is_stable_enabled_eq (p : Process) :
    nvcomp_integration.is_stable_enabled p =
      ((nvcomp_integration.policy_of (Policy.nvcomp.resolved p)).map
        (fun x => decide (x = nvcomp_integration.usage_policy.ALWAYS ∨
          x = nvcomp_integration.usage_policy.STABLE)),
       Policy.nvcomp.initialise p) := by
  unfold nvcomp_integration.is_stable_enabled
  rw [nvcomp_integration.is_all_enabled_eq]
  have h2 := nvcomp_get_env_policy_of_some _ _
    (nvcomp_initialise_env_val p)
  cases hp : nvcomp_integration.policy_of (Policy.nvcomp.resolved p) with
  | error e => simp [Except.map]
  | ok x => cases x <;> simp [Except.map, h2, hp]

theorem io_get_env_policy_eq (p : Process) :
    io_config.get_env_policy p =
      (io_config.policy_of (Policy.io.resolved p), Policy.io.initialise p) := by
  unfold io_config.get_env_policy Policy.initialise Policy.resolved Policy.env_val
    io_config.get_env_policy getenv_or
  cases h1 : p.io_env_val with
  | some v => simp
  | none => cases h2 : p.environ "LIBCUDF_IO_POLICY" <;>
      simp [h2, Policy.variable, Policy.default_val]

theorem io_get_env_policy_of_some (p : Process) (v : String)
    (h : p.io_env_val = some v) :
    io_config.get_env_policy p = (io_config.policy_of v, p) := by
  simp [io_config.get_env_policy, h]

theorem io_initialise_env_val (p : Process) :
    (Policy.io.initialise p).io_env_val = some (Policy.io.resolved p) := by
  unfold Policy.initialise Policy.resolved Policy.env_val io_config.get_env_policy
    getenv_or
  cases h1 : p.io_env_val with
  | some v => simp [h1]
  | none => cases h2 : p.environ "LIBCUDF_IO_POLICY" <;>
      simp [h2, Policy.variable, Policy.default_val]

theorem io_config.is_memory_mapping_enabled_eq (p : Process) :
    io_config.is_memory_mapping_enabled p =
      ((io_config.policy_of (Policy.io.resolved p)).map
        (fun x => decide (x = io_config.policy.MMAP_PAGEABLE ∨
          x = io_config.policy.MMAP_PINNED)),
       Policy.io.initialise p) := by
  unfold io_config.is_memory_mapping_enabled
  rw [io_get_env_policy_eq]
  have h2 := io_get_env_policy_of_some _ _ (io_initialise_env_val p)
  cases hp : io_config.policy_of (Policy.io.resolved p) with
  | error e => simp [Except.map]
  | ok x => cases x <;> simp [Except.map, h2, hp]

theorem io_config.is_pinned_enabled_eq (p : Process) :
    io_config.is_pinned_enabled p =
      ((io_config.policy_of (Policy.io.resolved p)).map
        (fun x => decide (x = io_config.policy.MMAP_PINNED ∨
          x = io_config.policy.DIRECT_PINNED)),
       Policy.io.initialise p) := by
  unfold io_config.is_pinned_enabled
  rw [io_get_env_policy_eq]
  have h2 := io_get_env_policy_of_some _ _ (io_initialise_env_val p)
  cases hp : io_config.policy_of (Policy.io.resolved p) with
  | error e => simp [Except.map]
  | ok x => cases x <;> simp [Except.map, h2, hp]

theorem Query.call_snd (q : Query) (p : Process) : (q.call p).2 = q.policy.initialise p := by
  cases q <;> simp only [Query.call, Query.policy, cufile_integration.is_always_enabled_eq,
    cufile_integration.is_gds_enabled_eq, cufile_integration.is_kvikio_enabled_eq,
    nvcomp_integration.is_all_enabled_eq, nvcomp_integration.is_stable_enabled_eq,
    io_config.is_memory_mapping_enabled_eq, io_config.is_pinned_enabled_eq]

/-- The result of a predicate depends on the process only through the value the static
`env_val` of its policy has after initialisation. -/
theorem Query.call_fst_congr (q : Query) (p p' : Process)
    (h : q.policy.resolved p = q.policy.resolved p') : (q.call p).1 = (q.call p').1 := by
  cases q <;> simp only [Query.policy] at h <;>
    simp only [Query.call, cufile_integration.is_always_enabled_eq,
      cufile_integration.is_gds_enabled_eq, cufile_integration.is_kvikio_enabled_eq,
      nvcomp_integration.is_all_enabled_eq, nvcomp_integration.is_stable_enabled_eq,
      io_config.is_memory_mapping_enabled_eq, io_config.is_pinned_enabled_eq, h]

/-- A predicate raises the error its `get_env_policy` raises. -/
theorem Query.call_fst_failure (q : Query) (p : Process) (e : String)
    (h : q.policy.failure (q.policy.resolved p) = some e) : (q.call p).1 = Except.error e := by
  cases q <;> simp only [Query.policy, Policy.failure] at h <;>
    simp only [Query.call, cufile_integration.is_always_enabled_eq,
      cufile_integration.is_gds_enabled_eq, cufile_integration.is_kvikio_enabled_eq,
      nvcomp_integration.is_all_enabled_eq, nvcomp_integration.is_stable_enabled_eq,
      io_config.is_memory_mapping_enabled_eq, io_config.is_pinned_enabled_eq] <;>
    split at h <;> simp_all [Except.map]

theorem Policy.initialise_env_val_self (pol : Policy) (p : Process) :
    pol.env_val (pol.initialise p) = some (pol.resolved p) := by
  cases pol
  · exact cufile_initialise_env_val p
  · exact nvcomp_initialise_env_val p
  · exact io_initialise_env_val p

theorem Policy.initialise_env_val_other (pol pol' : Policy) (p : Process) (hne : pol' ≠ pol) :
    pol'.env_val (pol.initialise p) = pol'.env_val p := by
  cases pol <;> cases pol' <;> first
    | exact absurd rfl hne
    | (simp only [Policy.env_val, Policy.initialise, cufile_integration.get_env_policy,
        nvcomp_integration.get_env_policy, io_config.get_env_policy, getenv_or]
       split <;> rfl)

theorem Policy.initialise_getenv_calls (pol : Policy) (p : Process) :
    (pol.initialise p).getenv_calls =
      (match pol.env_val p with
       | some _ => p.getenv_calls
       | none => pol.variable :: p.getenv_calls) := by
  cases pol <;>
    simp only [Policy.env_val, Policy.initialise, cufile_integration.get_env_policy,
      nvcomp_integration.get_env_policy, io_config.get_env_policy, getenv_or,
      Policy.variable] <;>
    split <;> simp_all

theorem Policy.initialise_keeps_env_val (pol pol' : Policy) (p : Process) (v : String)
    (h : pol'.env_val p = some v) : pol'.env_val (pol.initialise p) = some v := by
  by_cases hne : pol' = pol
  · subst hne
    rw [Policy.initialise_env_val_self]
    simp [Policy.resolved, h]
  · rw [Policy.initialise_env_val_other pol pol' p hne, h]

theorem Action.perform_keeps_env_val (a : Action) (pol : Policy) (p : Process) (v : String)
    (h : pol.env_val p = some v) : pol.env_val (a.perform p) = some v := by
  cases a with
  | setenv name value => cases pol <;> exact h
  | unsetenv name => cases pol <;> exact h
  | query q =>
    simp only [Action.perform, Query.call_snd]
    exact Policy.initialise_keeps_env_val _ _ _ _ h

theorem perform_all_keeps_env_val (acts : List Action) (pol : Policy) (p : Process)
    (v : String) (h : pol.env_val p = some v) :
    pol.env_val (perform_all acts p) = some v := by
  induction acts generalizing p with
  | nil => exact h
  | cons a acts ih => exact ih (a.perform p) (Action.perform_keeps_env_val a pol p v h)

theorem Policy.resolved_of_env_val (pol : Policy) (p : Process) (v : String)
    (h : pol.env_val p = some v) : pol.resolved p = v := by
  simp [Policy.resolved, h]

/-- Once a predicate of a policy has been called, the value its later calls see is the
one the first call resolved, whatever happens in between. -/
theorem resolved_after_query (q : Query) (p : Process) (acts : List Action) :
    q.policy.resolved (perform_all acts (q.call p).2) = q.policy.resolved p := by
  apply Policy.resolved_of_env_val
  apply perform_all_keeps_env_val
  rw [Query.call_snd]
  exact Policy.initialise_env_val_self _ _

theorem Policy.variable_injective (pol pol' : Policy) (h : pol.variable = pol'.variable) :
    pol = pol' := by
  cases pol <;> cases pol' <;> first | rfl | (exact absurd h (by decide))

/-- Once the static of a policy is initialised, nothing reads its variable again. -/
theorem perform_all_keeps_reads (acts : List Action) (pol : Policy) (p : Process) (v : String)
    (h : pol.env_val p = some v) :
    (perform_all acts p).getenv_calls.count pol.variable = p.getenv_calls.count pol.variable := by
  induction acts generalizing p with
  | nil => rfl
  | cons a acts ih =>
    have hstep : (a.perform p).getenv_calls.count pol.variable
        = p.getenv_calls.count pol.variable := by
      cases a with
      | setenv name value => rfl
      | unsetenv name => rfl
      | query q =>
        simp only [Action.perform, Query.call_snd, Policy.initialise_getenv_calls]
        cases hq : q.policy.env_val p with
        | some w => rfl
        | none =>
          have hne : q.policy.variable ≠ pol.variable := by
            intro he
            have := Policy.variable_injective _ _ he
            rw [this, h] at hq
            cases hq
          simp only [List.count_cons]
          simp [hne]
    have := ih (a.perform p) (Action.perform_keeps_env_val a pol p v h)
    simp only [perform_all, List.foldl_cons] at this ⊢
    rw [this, hstep]

/-- Each variable is read at most once, and not at all before its policy is initialised. -/
theorem perform_all_reads_once (acts : List Action) (pol : Policy) (p : Process)
    (hnone : pol.env_val p = none → p.getenv_calls.count pol.variable = 0)
    (hle : p.getenv_calls.count pol.variable ≤ 1) :
    (perform_all acts p).getenv_calls.count pol.variable ≤ 1 := by
  induction acts generalizing p with
  | nil => exact hle
  | cons a acts ih =>
    have key : (pol.env_val (a.perform p) = none →
          (a.perform p).getenv_calls.count pol.variable = 0) ∧
        (a.perform p).getenv_calls.count pol.variable ≤ 1 := by
      cases a with
      | setenv name value =>
        exact ⟨fun hn => hnone (by cases pol <;> exact hn), hle⟩
      | unsetenv name =>
        exact ⟨fun hn => hnone (by cases pol <;> exact hn), hle⟩
      | query q =>
        simp only [Action.perform, Query.call_snd]
        by_cases hq : q.policy = pol
        · cases hv : pol.env_val p with
          | some w =>
            constructor
            · intro hn
              rw [hq, Policy.initialise_keeps_env_val pol pol p w hv] at hn
              cases hn
            · rw [hq, Policy.initialise_getenv_calls, hv]
              exact hle
          | none =>
            constructor
            · intro hn
              rw [hq, Policy.initialise_env_val_self] at hn
              cases hn
            · rw [hq, Policy.initialise_getenv_calls, hv]
              simp only [List.count_cons_self]
              have := hnone hv
              omega
        · have hne : q.policy.variable ≠ pol.variable :=
            fun he => hq (Policy.variable_injective _ _ he)
          have hcalls : (q.policy.initialise p).getenv_calls.count pol.variable
              = p.getenv_calls.count pol.variable := by
            rw [Policy.initialise_getenv_calls]
            split
            · rfl
            · simp only [List.count_cons]
              simp [hne]
          constructor
          · intro hn
            rw [Policy.initialise_env_val_other _ _ _ (fun e => hq e.symm)] at hn
            rw [hcalls]
            exact hnone hn
          · rw [hcalls]
            exact hle
    exact ih (a.perform p) key.1 key.2

theorem Policy.failure_of_not_accepted (pol : Policy) (raw : String)
    (hbad : raw ∉ pol.accepted) :
    pol.failure raw = some ("Invalid " ++ pol.variable ++ " value: " ++ raw) := by
  cases pol <;>
    simp only [Policy.accepted, List.mem_cons, List.mem_singleton, List.not_mem_nil,
      or_false, not_or] at hbad <;>
    simp [Policy.failure, cufile_integration.policy_of, nvcomp_integration.policy_of,
      io_config.policy_of, hbad, CUDF_FAIL, Policy.variable]

theorem contains_variable_and_value (name raw : String) :
    contains ("Invalid " ++ name ++ " value: " ++ raw) name ∧
    contains ("Invalid " ++ name ++ " value: " ++ raw) raw :=
  ⟨⟨"Invalid ", " value: " ++ raw, by simp only [String.append_assoc]⟩,
   ⟨"Invalid " ++ name ++ " value: ", "", by rw [String.append_empty]⟩⟩

/-- C8: the cuFile predicates are functions of the policy `get_env_policy` resolves:
`is_always_enabled` is true iff it is `ALWAYS`, `is_gds_enabled` iff it is `ALWAYS` or
`GDS`, `is_kvikio_enabled` iff it is `KVIKIO`; and when the variable is unset at the
first query the policy is `KVIKIO` and the three results are false, false, true. -/
theorem cufile_predicates_spec (p : Process) (x : cufile_integration.usage_policy)
    (hx : (cufile_integration.get_env_policy p).1 = Except.ok x) :
    ((cufile_integration.is_always_enabled p).1
      = Except.ok (decide (x = cufile_integration.usage_policy.ALWAYS)) ∧
     (cufile_integration.is_gds_enabled p).1
      = Except.ok (decide (x = cufile_integration.usage_policy.ALWAYS ∨
          x = cufile_integration.usage_policy.GDS)) ∧
     (cufile_integration.is_kvikio_enabled p).1
      = Except.ok (decide (x = cufile_integration.usage_policy.KVIKIO))) ∧
    (∀ p0 : Process, p0.cufile_env_val = none → p0.environ "LIBCUDF_CUFILE_POLICY" = none →
      (cufile_integration.get_env_policy p0).1
        = Except.ok cufile_integration.usage_policy.KVIKIO ∧
      (cufile_integration.is_always_enabled p0).1 = Except.ok false ∧
      (cufile_integration.is_gds_enabled p0).1 = Except.ok false ∧
      (cufile_integration.is_kvikio_enabled p0).1 = Except.ok true) := by
  constructor
  · rw [cufile_get_env_policy_eq] at hx
    simp only [cufile_integration.is_always_enabled_eq, cufile_integration.is_gds_enabled_eq,
      cufile_integration.is_kvikio_enabled_eq]
    simp only at hx
    rw [hx]
    exact ⟨rfl, rfl, rfl⟩
  · intro p0 h1 h2
    have hr : Policy.cufile.resolved p0 = "KVIKIO" := by
      simp [Policy.resolved, Policy.env_val, h1, Policy.variable, h2, Policy.default_val]
    simp only [cufile_integration.is_always_enabled_eq, cufile_integration.is_gds_enabled_eq,
      cufile_integration.is_kvikio_enabled_eq, cufile_get_env_policy_eq, hr]
    exact ⟨rfl, rfl, rfl, rfl⟩

/-- C8 (witness): with the variable set to `GDS` the results are false, true, false. -/
theorem cufile_predicates_spec_witness :
    (cufile_integration.get_env_policy sample_gds_process).1
      = Except.ok cufile_integration.usage_policy.GDS ∧
    (cufile_integration.is_always_enabled sample_gds_process).1 = Except.ok false ∧
    (cufile_integration.is_gds_enabled sample_gds_process).1 = Except.ok true ∧
    (cufile_integration.is_kvikio_enabled sample_gds_process).1 = Except.ok false :=
  ⟨rfl, (cufile_predicates_spec sample_gds_process cufile_integration.usage_policy.GDS rfl).1⟩

/-- C9: for each of the three policies, when the variable holds a raw value that is not
one of the literals `get_env_policy` accepts at the time the policy is first queried,
every predicate of the policy fails with the error `Invalid <variable> value: <raw>`,
which contains the variable name and the raw value, and so does every later call of a
predicate of that policy, whatever the process does in between. -/
theorem invalid_value_always_fails (pol : Policy) (raw : String) (p : Process)
    (hnone : pol.env_val p = none) (hraw : p.environ pol.variable = some raw)
    (hbad : raw ∉ pol.accepted) (q : Query) (hq : q.policy = pol) :
    (q.call p).1 = Except.error ("Invalid " ++ pol.variable ++ " value: " ++ raw) ∧
    contains ("Invalid " ++ pol.variable ++ " value: " ++ raw) pol.variable ∧
    contains ("Invalid " ++ pol.variable ++ " value: " ++ raw) raw ∧
    (∀ (acts : List Action) (q' : Query), q'.policy = pol →
      (q'.call (perform_all acts (q.call p).2)).1
        = Except.error ("Invalid " ++ pol.variable ++ " value: " ++ raw)) := by
  subst hq
  have hr : q.policy.resolved p = raw := by
    simp [Policy.resolved, hnone, hraw]
  have hf := Policy.failure_of_not_accepted q.policy raw hbad
  refine ⟨Query.call_fst_failure q p _ (by rw [hr]; exact hf),
    (contains_variable_and_value _ _).1, (contains_variable_and_value _ _).2, ?_⟩
  intro acts q' hq'
  apply Query.call_fst_failure
  have hv : q.policy.env_val (perform_all acts (q.call p).2) = some raw := by
    apply perform_all_keeps_env_val
    rw [Query.call_snd, Policy.initialise_env_val_self, hr]
  rw [hq', Policy.resolved_of_env_val _ _ _ hv]
  exact hf

/-- C9 (witness): the value `GDS-ONLY` for the cuFile variable. -/
theorem invalid_value_always_fails_witness :
    (Policy.cufile.env_val sample_bad_process = none ∧
      sample_bad_process.environ Policy.cufile.variable = some "GDS-ONLY" ∧
      "GDS-ONLY" ∉ Policy.cufile.accepted) ∧
    (cufile_integration.is_gds_enabled sample_bad_process).1
      = Except.error "Invalid LIBCUDF_CUFILE_POLICY value: GDS-ONLY" ∧
    (cufile_integration.is_kvikio_enabled
        (setenv "LIBCUDF_CUFILE_POLICY" "GDS"
          (cufile_integration.is_gds_enabled sample_bad_process).2)).1
      = Except.error "Invalid LIBCUDF_CUFILE_POLICY value: GDS-ONLY" :=
  ⟨⟨rfl, rfl, by decide⟩,
   (invalid_value_always_fails Policy.cufile "GDS-ONLY" sample_bad_process rfl rfl (by decide)
      Query.cufile_is_gds_enabled rfl).1,
   (invalid_value_always_fails Policy.cufile "GDS-ONLY" sample_bad_process rfl rfl (by decide)
      Query.cufile_is_gds_enabled rfl).2.2.2 [Action.setenv "LIBCUDF_CUFILE_POLICY" "GDS"]
      Query.cufile_is_kvikio_enabled rfl⟩

/-- C10: once a predicate of a policy has been called, every later call of it returns
what the first call returned (a value or the failure), every predicate of the same policy
returns later what it returns right after the first call, and the variable of the policy
is not read again, however the environment is changed and whatever else is queried in
between; from the start of the process, no policy variable is read more than once. -/
theorem policy_queries_memoized (q : Query) (p : Process) (acts : List Action)
    (pol : Policy) (environ : String → Option String) :
    (q.call (perform_all acts (q.call p).2)).1 = (q.call p).1 ∧
    (∀ q' : Query, q'.policy = q.policy →
      (q'.call (perform_all acts (q.call p).2)).1 = (q'.call (q.call p).2).1) ∧
    (perform_all acts (q.call p).2).getenv_calls.count q.policy.variable
      = (q.call p).2.getenv_calls.count q.policy.variable ∧
    (perform_all acts (Process.start environ)).getenv_calls.count pol.variable ≤ 1 := by
  have hv : q.policy.env_val (q.call p).2 = some (q.policy.resolved p) := by
    rw [Query.call_snd]
    exact Policy.initialise_env_val_self _ _
  refine ⟨Query.call_fst_congr q _ _ (resolved_after_query q p acts), ?_,
    perform_all_keeps_reads acts q.policy _ _ hv, ?_⟩
  · intro q' hq'
    apply Query.call_fst_congr
    rw [hq', resolved_after_query q p acts, Policy.resolved_of_env_val _ _ _ hv]
  · exact perform_all_reads_once acts pol _ (fun _ => rfl) (by simp [Process.start])

end cudf.io.detail

/-! ## Accepted literals and truth tables of the policies -/

namespace cudf.io.detail

theorem Policy.resolved_of_unset (pol : Policy) (p : Process) (h1 : pol.env_val p = none)
    (h2 : p.environ pol.variable = none) : pol.resolved p = pol.default_val := by
  simp [Policy.resolved, h1, h2]

theorem Policy.resolved_of_set (pol : Policy) (p : Process) (raw : String)
    (h1 : pol.env_val p = none) (h2 : p.environ pol.variable = some raw) :
    pol.resolved p = raw := by
  simp [Policy.resolved, h1, h2]

theorem cufile_policy_of_ok_iff (raw : String) :
    (∃ x, cufile_integration.policy_of raw = Except.ok x) ↔
      raw ∈ ["OFF", "GDS", "ALWAYS", "KVIKIO"] := by
  unfold cufile_integration.policy_of CUDF_FAIL
  simp only [List.mem_cons, List.mem_singleton, List.not_mem_nil, or_false]
  constructor
  · intro ⟨x, hx⟩
    by_contra hn
    simp only [not_or] at hn
    simp [hn.1, hn.2.1, hn.2.2.1, hn.2.2.2] at hx
  · rintro (h | h | h | h) <;> subst h <;> simp

/-- C11 (amended): the raw values `get_env_policy` of cuFile accepts are exactly `OFF`,
`GDS`, `ALWAYS` and `KVIKIO`, each resolving to the policy of that name, every other
string being rejected; the first query returns the policy of the raw value of the
variable when it is set, and `KVIKIO` when it is absent. -/
theorem cufile_accepted_literals (raw : String) (p : Process)
    (hfirst : p.cufile_env_val = none) :
    ((∃ x, cufile_integration.policy_of raw = Except.ok x) ↔
      raw ∈ ["OFF", "GDS", "ALWAYS", "KVIKIO"]) ∧
    cufile_integration.policy_of "OFF" = Except.ok cufile_integration.usage_policy.OFF ∧
    cufile_integration.policy_of "GDS" = Except.ok cufile_integration.usage_policy.GDS ∧
    cufile_integration.policy_of "ALWAYS" = Except.ok cufile_integration.usage_policy.ALWAYS ∧
    cufile_integration.policy_of "KVIKIO" = Except.ok cufile_integration.usage_policy.KVIKIO ∧
    (p.environ "LIBCUDF_CUFILE_POLICY" = some raw →
      (cufile_integration.get_env_policy p).1 = cufile_integration.policy_of raw) ∧
    (p.environ "LIBCUDF_CUFILE_POLICY" = none →
      (cufile_integration.get_env_policy p).1
        = Except.ok cufile_integration.usage_policy.KVIKIO) := by
  refine ⟨cufile_policy_of_ok_iff raw, rfl, rfl, rfl, rfl, ?_, ?_⟩
  · intro h
    rw [cufile_get_env_policy_eq, Policy.resolved_of_set Policy.cufile p raw hfirst h]
  · intro h
    rw [cufile_get_env_policy_eq, Policy.resolved_of_unset Policy.cufile p hfirst h]
    rfl

/-- C11 (counterexample): the strings `GDS-ONLY` and `LIBRARY-MANAGED` of the claimed set
are rejected, and the strings `GDS` and `KVIKIO`, which are outside it, are accepted. -/
theorem cufile_claimed_literals_fail :
    ¬ (∀ raw : String, (∃ x, cufile_integration.policy_of raw = Except.ok x) ↔
        raw ∈ ["OFF", "GDS-ONLY", "ALWAYS", "LIBRARY-MANAGED"]) ∧
    cufile_integration.policy_of "GDS-ONLY"
      = Except.error "Invalid LIBCUDF_CUFILE_POLICY value: GDS-ONLY" ∧
    cufile_integration.policy_of "LIBRARY-MANAGED"
      = Except.error "Invalid LIBCUDF_CUFILE_POLICY value: LIBRARY-MANAGED" ∧
    cufile_integration.policy_of "GDS" = Except.ok cufile_integration.usage_policy.GDS ∧
    cufile_integration.policy_of "KVIKIO" = Except.ok cufile_integration.usage_policy.KVIKIO := by
  refine ⟨?_, rfl, rfl, rfl, rfl⟩
  intro hall
  have h := (hall "GDS-ONLY").2 (by decide)
  obtain ⟨x, hx⟩ := h
  have he : cufile_integration.policy_of "GDS-ONLY"
      = Except.error "Invalid LIBCUDF_CUFILE_POLICY value: GDS-ONLY" := rfl
  rw [he] at hx
  cases hx

/-- C11 (witness): a process that starts with the variable set to `GDS`. -/
theorem cufile_accepted_literals_witness :
    sample_gds_process.cufile_env_val = none ∧
    ((∃ x, cufile_integration.policy_of "GDS" = Except.ok x) ↔
      "GDS" ∈ ["OFF", "GDS", "ALWAYS", "KVIKIO"]) ∧
    (cufile_integration.get_env_policy sample_gds_process).1
      = cufile_integration.policy_of "GDS" :=
  ⟨rfl, (cufile_accepted_literals "GDS" sample_gds_process rfl).1,
   (cufile_accepted_literals "GDS" sample_gds_process rfl).2.2.2.2.2.1 rfl⟩

theorem io_policy_of_ok_iff (raw : String) :
    (∃ x, io_config.policy_of raw = Except.ok x) ↔
      raw ∈ ["MMAP_PAGEABLE", "MMAP_PINNED", "DIRECT_PAGEABLE", "DIRECT_PINNED"] := by
  unfold io_config.policy_of CUDF_FAIL
  simp only [List.mem_cons, List.mem_singleton, List.not_mem_nil, or_false]
  constructor
  · intro ⟨x, hx⟩
    by_contra hn
    simp only [not_or] at hn
    simp [hn.1, hn.2.1, hn.2.2.1, hn.2.2.2] at hx
  · rintro (h | h | h | h) <;> subst h <;> simp

theorem nvcomp_policy_of_ok_iff (raw : String) :
    (∃ x, nvcomp_integration.policy_of raw = Except.ok x) ↔
      raw ∈ ["OFF", "STABLE", "ALWAYS"] := by
  unfold nvcomp_integration.policy_of CUDF_FAIL
  simp only [List.mem_cons, List.mem_singleton, List.not_mem_nil, or_false]
  constructor
  · intro ⟨x, hx⟩
    by_contra hn
    simp only [not_or] at hn
    simp [hn.1, hn.2.1, hn.2.2] at hx
  · rintro (h | h | h) <;> subst h <;> simp

/-- The two I/O predicates at the first query of a process whose variable holds `raw`. -/
theorem io_predicates_of_set (p : Process) (raw : String) (h1 : p.io_env_val = none)
    (h2 : p.environ "LIBCUDF_IO_POLICY" = some raw) :
    (io_config.is_memory_mapping_enabled p).1 = (io_config.policy_of raw).map
      (fun x => decide (x = io_config.policy.MMAP_PAGEABLE ∨ x = io_config.policy.MMAP_PINNED)) ∧
    (io_config.is_pinned_enabled p).1 = (io_config.policy_of raw).map
      (fun x => decide (x = io_config.policy.MMAP_PINNED ∨ x = io_config.policy.DIRECT_PINNED)) := by
  rw [io_config.is_memory_mapping_enabled_eq, io_config.is_pinned_enabled_eq,
    Policy.resolved_of_set Policy.io p raw h1 h2]
  exact ⟨rfl, rfl⟩

/-- The two nvCOMP predicates at the first query of a process whose variable holds `raw`. -/
theorem nvcomp_predicates_of_set (p : Process) (raw : String) (h1 : p.nvcomp_env_val = none)
    (h2 : p.environ "LIBCUDF_NVCOMP_POLICY" = some raw) :
    (nvcomp_integration.is_all_enabled p).1 = (nvcomp_integration.policy_of raw).map
      (fun x => decide (x = nvcomp_integration.usage_policy.ALWAYS)) ∧
    (nvcomp_integration.is_stable_enabled p).1 = (nvcomp_integration.policy_of raw).map
      (fun x => decide (x = nvcomp_integration.usage_policy.ALWAYS ∨
        x = nvcomp_integration.usage_policy.STABLE)) := by
  rw [nvcomp_integration.is_all_enabled_eq, nvcomp_integration.is_stable_enabled_eq,
    Policy.resolved_of_set Policy.nvcomp p raw h1 h2]
  exact ⟨rfl, rfl⟩

/-- C12: for the I/O policy the accepted literals are exactly `MMAP_PAGEABLE`,
`MMAP_PINNED`, `DIRECT_PAGEABLE`, `DIRECT_PINNED`; for every resolved policy
`is_memory_mapping_enabled` is true iff it is `MMAP_PAGEABLE` or `MMAP_PINNED` and
`is_pinned_enabled` is true iff it is `MMAP_PINNED` or `DIRECT_PINNED`; at the first
query the four literals give the (mapping, pinned) pairs (true, false), (true, true),
(false, false), (false, true) and an unset variable gives (true, false). -/
theorem io_policy_spec (p : Process) (x : io_config.policy)
    (hx : (io_config.get_env_policy p).1 = Except.ok x) :
    ((io_config.is_memory_mapping_enabled p).1 = Except.ok
        (decide (x = io_config.policy.MMAP_PAGEABLE ∨ x = io_config.policy.MMAP_PINNED)) ∧
     (io_config.is_pinned_enabled p).1 = Except.ok
        (decide (x = io_config.policy.MMAP_PINNED ∨ x = io_config.policy.DIRECT_PINNED))) ∧
    (∀ raw : String, (∃ y, io_config.policy_of raw = Except.ok y) ↔
      raw ∈ ["MMAP_PAGEABLE", "MMAP_PINNED", "DIRECT_PAGEABLE", "DIRECT_PINNED"]) ∧
    (∀ p0 : Process, p0.io_env_val = none →
      (p0.environ "LIBCUDF_IO_POLICY" = some "MMAP_PAGEABLE" →
        (io_config.is_memory_mapping_enabled p0).1 = Except.ok true ∧
        (io_config.is_pinned_enabled p0).1 = Except.ok false) ∧
      (p0.environ "LIBCUDF_IO_POLICY" = some "MMAP_PINNED" →
        (io_config.is_memory_mapping_enabled p0).1 = Except.ok true ∧
        (io_config.is_pinned_enabled p0).1 = Except.ok true) ∧
      (p0.environ "LIBCUDF_IO_POLICY" = some "DIRECT_PAGEABLE" →
        (io_config.is_memory_mapping_enabled p0).1 = Except.ok false ∧
        (io_config.is_pinned_enabled p0).1 = Except.ok false) ∧
      (p0.environ "LIBCUDF_IO_POLICY" = some "DIRECT_PINNED" →
        (io_config.is_memory_mapping_enabled p0).1 = Except.ok false ∧
        (io_config.is_pinned_enabled p0).1 = Except.ok true) ∧
      (p0.environ "LIBCUDF_IO_POLICY" = none →
        (io_config.get_env_policy p0).1 = Except.ok io_config.policy.MMAP_PAGEABLE ∧
        (io_config.is_memory_mapping_enabled p0).1 = Except.ok true ∧
        (io_config.is_pinned_enabled p0).1 = Except.ok false)) := by
  refine ⟨?_, io_policy_of_ok_iff, ?_⟩
  · rw [io_get_env_policy_eq] at hx
    simp only at hx
    rw [io_config.is_memory_mapping_enabled_eq, io_config.is_pinned_enabled_eq, hx]
    exact ⟨rfl, rfl⟩
  · intro p0 h1
    refine ⟨fun h2 => ?_, fun h2 => ?_, fun h2 => ?_, fun h2 => ?_, fun h2 => ?_⟩
    · rw [(io_predicates_of_set p0 _ h1 h2).1, (io_predicates_of_set p0 _ h1 h2).2]
      exact ⟨rfl, rfl⟩
    · rw [(io_predicates_of_set p0 _ h1 h2).1, (io_predicates_of_set p0 _ h1 h2).2]
      exact ⟨rfl, rfl⟩
    · rw [(io_predicates_of_set p0 _ h1 h2).1, (io_predicates_of_set p0 _ h1 h2).2]
      exact ⟨rfl, rfl⟩
    · rw [(io_predicates_of_set p0 _ h1 h2).1, (io_predicates_of_set p0 _ h1 h2).2]
      exact ⟨rfl, rfl⟩
    · rw [io_config.is_memory_mapping_enabled_eq, io_config.is_pinned_enabled_eq,
        io_get_env_policy_eq, Policy.resolved_of_unset Policy.io p0 h1 h2]
      exact ⟨rfl, rfl, rfl⟩

/-- C12 (witness): with the variable set to `DIRECT_PINNED` the pair is (false, true). -/
theorem io_policy_spec_witness :
    (io_config.get_env_policy sample_io_process).1
      = Except.ok io_config.policy.DIRECT_PINNED ∧
    (io_config.is_memory_mapping_enabled sample_io_process).1 = Except.ok false ∧
    (io_config.is_pinned_enabled sample_io_process).1 = Except.ok true :=
  ⟨rfl, (io_policy_spec sample_io_process io_config.policy.DIRECT_PINNED rfl).1⟩

/-- C13: for the nvCOMP policy the accepted literals are exactly `OFF`, `STABLE`,
`ALWAYS`; for every resolved policy `is_all_enabled` is true iff it is `ALWAYS` and
`is_stable_enabled` is true iff it is `ALWAYS` or `STABLE`, so that `is_all_enabled`
implies `is_stable_enabled`; at the first query `OFF` gives (false, false), `STABLE`
(false, true), `ALWAYS` (true, true) and an unset variable (false, true). -/
theorem nvcomp_policy_spec (p : Process) (x : nvcomp_integration.usage_policy)
    (hx : (nvcomp_integration.get_env_policy p).1 = Except.ok x) :
    ((nvcomp_integration.is_all_enabled p).1 = Except.ok
        (decide (x = nvcomp_integration.usage_policy.ALWAYS)) ∧
     (nvcomp_integration.is_stable_enabled p).1 = Except.ok
        (decide (x = nvcomp_integration.usage_policy.ALWAYS ∨
          x = nvcomp_integration.usage_policy.STABLE)) ∧
     ((nvcomp_integration.is_all_enabled p).1 = Except.ok true →
        (nvcomp_integration.is_stable_enabled p).1 = Except.ok true)) ∧
    (∀ raw : String, (∃ y, nvcomp_integration.policy_of raw = Except.ok y) ↔
      raw ∈ ["OFF", "STABLE", "ALWAYS"]) ∧
    (∀ p0 : Process, p0.nvcomp_env_val = none →
      (p0.environ "LIBCUDF_NVCOMP_POLICY" = some "OFF" →
        (nvcomp_integration.is_all_enabled p0).1 = Except.ok false ∧
        (nvcomp_integration.is_stable_enabled p0).1 = Except.ok false) ∧
      (p0.environ "LIBCUDF_NVCOMP_POLICY" = some "STABLE" →
        (nvcomp_integration.is_all_enabled p0).1 = Except.ok false ∧
        (nvcomp_integration.is_stable_enabled p0).1 = Except.ok true) ∧
      (p0.environ "LIBCUDF_NVCOMP_POLICY" = some "ALWAYS" →
        (nvcomp_integration.is_all_enabled p0).1 = Except.ok true ∧
        (nvcomp_integration.is_stable_enabled p0).1 = Except.ok true) ∧
      (p0.environ "LIBCUDF_NVCOMP_POLICY" = none →
        (nvcomp_integration.get_env_policy p0).1
          = Except.ok nvcomp_integration.usage_policy.STABLE ∧
        (nvcomp_integration.is_all_enabled p0).1 = Except.ok false ∧
        (nvcomp_integration.is_stable_enabled p0).1 = Except.ok true)) := by
  refine ⟨?_, nvcomp_policy_of_ok_iff, ?_⟩
  · rw [nvcomp_get_env_policy_eq] at hx
    simp only at hx
    rw [nvcomp_integration.is_all_enabled_eq, nvcomp_integration.is_stable_enabled_eq, hx]
    refine ⟨rfl, rfl, ?_⟩
    cases x <;> simp [Except.map]
  · intro p0 h1
    refine ⟨fun h2 => ?_, fun h2 => ?_, fun h2 => ?_, fun h2 => ?_⟩
    · rw [(nvcomp_predicates_of_set p0 _ h1 h2).1, (nvcomp_predicates_of_set p0 _ h1 h2).2]
      exact ⟨rfl, rfl⟩
    · rw [(nvcomp_predicates_of_set p0 _ h1 h2).1, (nvcomp_predicates_of_set p0 _ h1 h2).2]
      exact ⟨rfl, rfl⟩
    · rw [(nvcomp_predicates_of_set p0 _ h1 h2).1, (nvcomp_predicates_of_set p0 _ h1 h2).2]
      exact ⟨rfl, rfl⟩
    · rw [nvcomp_integration.is_all_enabled_eq, nvcomp_integration.is_stable_enabled_eq,
        nvcomp_get_env_policy_eq, Policy.resolved_of_unset Policy.nvcomp p0 h1 h2]
      exact ⟨rfl, rfl, rfl⟩

/-- C13 (witness): with the variable set to `OFF` the pair is (false, false). -/
theorem nvcomp_policy_spec_witness :
    (nvcomp_integration.get_env_policy sample_nvcomp_process).1
      = Except.ok nvcomp_integration.usage_policy.OFF ∧
    (nvcomp_integration.is_all_enabled sample_nvcomp_process).1 = Except.ok false ∧
    (nvcomp_integration.is_stable_enabled sample_nvcomp_process).1 = Except.ok false :=
  ⟨rfl, (nvcomp_policy_spec sample_nvcomp_process nvcomp_integration.usage_policy.OFF rfl).1.1,
   (nvcomp_policy_spec sample_nvcomp_process nvcomp_integration.usage_policy.OFF rfl).1.2.1⟩

end cudf.io.detail

/-! ## Reallocation policy of `resize`, `reserve`, `push_back`; `clear` -/

namespace cudf.detail.host_vector

variable {T : Type}

theorem append_ne_self_of_ne_nil {α : Type} (pre log : List α) (hne : pre ≠ []) :
    pre ++ log ≠ log := by
  intro he
  have hl := congrArg List.length he
  simp only [List.length_append] at hl
  have : pre.length = 0 := by omega
  exact hne (List.length_eq_zero.mp this)

/-- C14 (amended): `resize(m)` reallocates exactly when `m > capacity()`.  It then takes a
fresh region, the new capacity is `max(capacity * 2 mod 2^64, m)`, which is
`max(2 * capacity, m)` whenever `2 * capacity` fits in `size_t`, the stream is
synchronised once and the old region, if any, is released after that.  When
`m <= capacity()` the capacity and the region held are unchanged and no call is made to
the resource or the stream. -/
theorem resize_reallocation_spec [Zero T] (sz m : Nat) (v : cudf.detail.host_vector T)
    (h : Heap T) :
    ((v.resize sz m h).2.log = h.log ↔ m ≤ v.capacity) ∧
    (m > v.capacity →
      (v.resize sz m h).1.capacity = max (size_mul v.capacity 2) m ∧
      (v.capacity * 2 < SIZE_MOD → (v.resize sz m h).1.capacity = max (2 * v.capacity) m) ∧
      (v.resize sz m h).1.data = some h.next ∧
      (v.resize sz m h).2.next = h.next + 1 ∧
      (v.resize sz m h).2.log =
        (match v._data with
         | some d => [Event.deallocate_async v._mr d.addr (size_mul v._size sz) v._stream]
         | none => []) ++
        [Event.synchronize v._stream,
         Event.allocate_async v._mr (size_mul (max (size_mul v._capacity 2) m) sz) v._stream
           h.next] ++ h.log) ∧
    (m ≤ v.capacity →
      (v.resize sz m h).1.capacity = v.capacity ∧
      (v.resize sz m h).1.data = v.data ∧
      (v.resize sz m h).2.next = h.next ∧
      (v.resize sz m h).2.log = h.log) := by
  obtain ⟨hn, hlg, hd⟩ := resize_effect sz m v h
  have hk := resize_capacity sz m v h
  simp only [capacity] at *
  refine ⟨?_, ?_, ?_⟩
  · by_cases hc : m > v._capacity
    · simp only [hc, if_true] at hlg
      rw [hlg]
      constructor
      · intro he
        exact absurd he (append_ne_self_of_ne_nil _ _ (by simp))
      · intro hle
        omega
    · simp only [hc, if_false] at hlg
      exact ⟨fun _ => by omega, fun _ => hlg⟩
  · intro hc
    simp only [hc, if_true] at hn hlg hd hk
    refine ⟨hk, ?_, hd, hn, hlg⟩
    intro h2
    rw [hk, size_mul_of_lt h2, Nat.mul_comm]
  · intro hc
    have hc2 : ¬ m > v._capacity := by omega
    simp only [hc2, if_false] at hn hlg hd hk
    exact ⟨hk, hd, hn, hlg⟩

/-- Growing a buffer of capacity `2^63` by one element: `capacity * 2` wraps to 0. -/
theorem resize_capacity_wrapped [Zero T] (sz : Nat) (v : cudf.detail.host_vector T)
    (h : Heap T) (hc : v._capacity = 9223372036854775808) :
    (v.resize sz 9223372036854775809 h).1.capacity = 9223372036854775809 ∧
    max (2 * v.capacity) 9223372036854775809 = 18446744073709551616 := by
  simp only [capacity, resize_capacity, hc]
  decide

/-- C14 (counterexample): the buffer `host_vector(2^63, mr, stream)` builds for 8-byte
elements has capacity `2^63`; `resize(2^63 + 1)` reallocates and the new capacity is
`2^63 + 1`, because `capacity * 2` is 0 in `size_t`, and not `max(2 * 2^63, 2^63 + 1)`.
The same holds for a well-formed buffer of `2^63` one-byte elements. -/
theorem resize_claimed_capacity_fails :
    sample_huge.1.capacity = 9223372036854775808 ∧
    9223372036854775809 > sample_huge.1.capacity ∧
    (sample_huge.1.resize 8 9223372036854775809 sample_huge.2).1.capacity
      = 9223372036854775809 ∧
    ¬ ((sample_huge.1.resize 8 9223372036854775809 sample_huge.2).1.capacity
        = max (2 * sample_huge.1.capacity) 9223372036854775809) ∧
    WF 1 (host_vector 1 9223372036854775808 1 false 0 sample_heap).1 ∧
    ¬ (((host_vector 1 9223372036854775808 1 false 0 sample_heap).1.resize 1
          9223372036854775809 sample_heap).1.capacity
        = max (2 * (host_vector 1 9223372036854775808 1 false 0 sample_heap).1.capacity)
            9223372036854775809) := by
  have hn : 9223372036854775808 * 1 < SIZE_MOD := by decide
  have heq := constructor_eq 1 9223372036854775808 1 false 0 sample_heap (by decide) hn
    (by decide)
  refine ⟨by decide, by decide, by decide, by decide, ?_, ?_⟩
  · rw [heq]
    exact ⟨List.length_replicate _ _, le_refl _, hn⟩
  · have hcap : (host_vector 1 9223372036854775808 1 false 0 sample_heap).1._capacity
        = 9223372036854775808 := by rw [heq]
    obtain ⟨h1, h2⟩ := resize_capacity_wrapped 1
      (host_vector 1 9223372036854775808 1 false 0 sample_heap).1 sample_heap hcap
    rw [h1, h2]
    decide

/-- C15 (amended): on a well-formed buffer, when the byte size `c * sizeof(T)` of the
region that `reserve(c)` allocates for `c > capacity()` does not wrap around in `size_t`,
after `reserve(c)` the capacity is at least `c` and at least the old capacity, `size()` is
unchanged, every element below `size()` is unchanged, no memory outside the region is
accessed and the buffer is well-formed; when `c <= capacity()` (whatever the buffer)
the buffer and the heap are entirely unchanged. -/
theorem reserve_spec (sz c : Nat) (v : cudf.detail.host_vector T) (h : Heap T)
    (hsz : 0 < sz) (hwf : WF sz v) (hno : v._capacity < c → c * sz < SIZE_MOD) :
    c ≤ (v.reserve sz c h).1.capacity ∧
    v.capacity ≤ (v.reserve sz c h).1.capacity ∧
    (v.reserve sz c h).1.size = v.size ∧
    (∀ i, i < v.size → (v.reserve sz c h).1.index i = v.index i) ∧
    (v.reserve sz c h).2.ub = h.ub ∧
    WF sz (v.reserve sz c h).1 ∧
    (∀ (w : cudf.detail.host_vector T) (g : Heap T), c ≤ w.capacity →
      w.reserve sz c g = (w, g)) := by
  obtain ⟨hcells, hs, hk, hu⟩ := reserve_cells sz c v h hsz hwf hno
  obtain ⟨hlen, hle, hcap⟩ := hwf
  simp only [capacity, size]
  refine ⟨?_, ?_, hs, ?_, hu, ⟨?_, ?_, ?_⟩, ?_⟩
  · rw [hk]; split_ifs <;> omega
  · rw [hk]; split_ifs <;> omega
  · intro i hi
    rw [index_eq_cells, index_eq_cells, hcells]
    split_ifs with hc
    · rw [List.getElem?_append_left (by simp; omega), List.getElem?_take_of_lt hi]
    · rfl
  · rw [hcells, hk]
    split_ifs with hc
    · simp only [List.length_append, List.length_take, List.length_drop, List.length_map,
        List.length_range]
      omega
    · exact hlen
  · rw [hs, hk]; split_ifs <;> omega
  · rw [hk]
    split_ifs with hc
    · exact hno hc
    · exact hcap
  · intro w g hw
    have : ¬ c > w._capacity := by omega
    simp [reserve, this]

/-- C15 (counterexample): on a buffer holding one 8-byte element, `reserve(2^61)` asks the
resource for `2^61 * 8 mod 2^64 = 0` bytes and copies the element outside that region:
afterwards `size()` is still 1 but element 0 no longer reads as before. -/
theorem reserve_claim_fails_when_bytes_wrap :
    WF 8 sample_one.1 ∧ sample_one.1.size = 1 ∧ sample_one.1.index 0 = some 0 ∧
    (sample_one.1.reserve 8 2305843009213693952 sample_one.2).1.size = 1 ∧
    ¬ (∀ i, i < sample_one.1.size →
        (sample_one.1.reserve 8 2305843009213693952 sample_one.2).1.index i
          = sample_one.1.index i) := by
  refine ⟨by decide, by decide, by decide, by decide, ?_⟩
  intro hall
  have h0 := hall 0 (by decide)
  revert h0
  decide

/-- C15 (witness): reserving 10 elements for the cleared buffer `sample_stale` of capacity
4, and for the buffer holding 5, 6, 7. -/
theorem reserve_spec_witness :
    (0 < 4 ∧ WF 4 (push_back_all 4 [5, 6, 7] sample_stale.1 sample_stale.2).1 ∧
      (push_back_all 4 [5, 6, 7] sample_stale.1 sample_stale.2).1.capacity = 4) ∧
    10 ≤ ((push_back_all 4 [5, 6, 7] sample_stale.1 sample_stale.2).1.reserve 4 10
            (push_back_all 4 [5, 6, 7] sample_stale.1 sample_stale.2).2).1.capacity ∧
    (∀ i, i < (push_back_all 4 [5, 6, 7] sample_stale.1 sample_stale.2).1.size →
      ((push_back_all 4 [5, 6, 7] sample_stale.1 sample_stale.2).1.reserve 4 10
          (push_back_all 4 [5, 6, 7] sample_stale.1 sample_stale.2).2).1.index i
        = (push_back_all 4 [5, 6, 7] sample_stale.1 sample_stale.2).1.index i) :=
  ⟨⟨by decide, by decide, by decide⟩,
   (reserve_spec 4 10 (push_back_all 4 [5, 6, 7] sample_stale.1 sample_stale.2).1
      (push_back_all 4 [5, 6, 7] sample_stale.1 sample_stale.2).2 (by decide) (by decide)
      (by decide)).1,
   (reserve_spec 4 10 (push_back_all 4 [5, 6, 7] sample_stale.1 sample_stale.2).1
      (push_back_all 4 [5, 6, 7] sample_stale.1 sample_stale.2).2 (by decide) (by decide)
      (by decide)).2.2.2.1⟩

theorem append_capacity_agrees (c : Nat) (hc : c * 2 < SIZE_MOD) :
    (if c = 0 then 2 else size_mul c 2) = append_capacity_spec c := by
  unfold append_capacity_spec
  split_ifs with h0
  · simp [h0]
  · rw [size_mul_of_lt hc]
    omega

/-- C16 (amended): when `capacity * 2` does not wrap around in `size_t`, `push_back`
reallocates exactly when `size() == capacity()` before the call; the new capacity is then
`max(2, 2 * capacity)`, which is what the code's `capacity == 0 ? 2 : capacity * 2`
computes, and is at least double the old one; when `size() != capacity()` the capacity and
the region held are unchanged and no call is made to the resource. -/
theorem push_back_growth_spec (sz : Nat) (x : Ref T) (v : cudf.detail.host_vector T)
    (h : Heap T) (hfit : v._size = v._capacity → v._capacity * 2 < SIZE_MOD) :
    ((v.push_back sz x h).2.log = h.log ↔ v.size ≠ v.capacity) ∧
    (v.size = v.capacity →
      (v.push_back sz x h).1.capacity = append_capacity_spec v.capacity ∧
      2 * v.capacity ≤ (v.push_back sz x h).1.capacity ∧
      (v.push_back sz x h).1.data = some h.next ∧
      (v.push_back sz x h).2.log =
        (match v._data with
         | some d => [Event.deallocate_async v._mr d.addr (size_mul v._size sz) v._stream]
         | none => []) ++
        [Event.synchronize v._stream,
         Event.allocate_async v._mr (size_mul (append_capacity_spec v._capacity) sz) v._stream
           h.next] ++ h.log) ∧
    (v.size ≠ v.capacity →
      (v.push_back sz x h).1.capacity = v.capacity ∧
      (v.push_back sz x h).1.data = v.data) ∧
    (∀ c, c * 2 < SIZE_MOD → (if c = 0 then 2 else size_mul c 2) = append_capacity_spec c) := by
  obtain ⟨-, hk⟩ := push_back_fields sz x v h
  obtain ⟨-, hlg, hd⟩ := push_back_effect sz x v h
  obtain ⟨-, hlg2, hd2⟩ := reserve_effect sz
    (if v._capacity = 0 then 2 else size_mul v._capacity 2) v h
  simp only [capacity, size]
  by_cases hfull : v._size = v._capacity
  · have hagree := append_capacity_agrees v._capacity (hfit hfull)
    have hgt : append_capacity_spec v._capacity > v._capacity := by
      unfold append_capacity_spec
      omega
    rw [hagree] at hk hlg hd hlg2 hd2
    rw [if_pos hfull] at hk hlg hd
    simp only [hgt, if_true] at hk hlg2 hd2
    rw [hlg2] at hlg
    rw [hd2] at hd
    refine ⟨?_, ?_, ?_, append_capacity_agrees⟩
    · rw [hlg]
      constructor
      · intro he
        exact absurd he (append_ne_self_of_ne_nil _ _ (by simp))
      · intro hne
        exact absurd hfull hne
    · intro _
      refine ⟨hk, ?_, hd, ?_⟩
      · rw [hk]
        unfold append_capacity_spec
        omega
      · exact hlg
    · intro hne
      exact absurd hfull hne
  · simp only [hfull, if_false] at hk hlg hd
    refine ⟨⟨fun _ => hfull, fun _ => hlg⟩, fun he => absurd he hfull, fun _ => ⟨hk, hd⟩,
      append_capacity_agrees⟩

theorem size_eq_field (v : cudf.detail.host_vector T) : v.size = v._size := rfl

theorem capacity_eq_field (v : cudf.detail.host_vector T) : v.capacity = v._capacity := rfl

/-- An append to a full buffer of capacity `2^63` does not grow it: `capacity * 2` wraps
to 0, so `reserve` is asked for nothing. -/
theorem push_back_capacity_wrapped (sz : Nat) (x : Ref T) (v : cudf.detail.host_vector T)
    (h : Heap T) (hs : v._size = 9223372036854775808)
    (hc : v._capacity = 9223372036854775808) :
    (v.push_back sz x h).1.capacity = 9223372036854775808 ∧
    (v.push_back sz x h).2.log = h.log := by
  obtain ⟨-, hk⟩ := push_back_fields sz x v h
  obtain ⟨-, hlg, -⟩ := push_back_effect sz x v h
  obtain ⟨-, hlg2, -⟩ := reserve_effect sz
    (if v._capacity = 0 then 2 else size_mul v._capacity 2) v h
  rw [hlg2] at hlg
  simp only [hs, hc] at hk hlg
  have e1 : (if (9223372036854775808 : Nat) = 0 then 2 else size_mul 9223372036854775808 2)
      = 0 := by decide
  rw [e1] at hk hlg
  simp only [capacity]
  exact ⟨by simpa using hk, by simpa using hlg⟩

/-- C16 (counterexample): the buffer `host_vector(2^63, mr, stream)` builds for 8-byte
elements is full with capacity `2^63`; `push_back` on it makes no call to the resource
and leaves the capacity at `2^63`, because `capacity * 2` is 0 in `size_t` whereas
`max(2, 2 * capacity)` is `2^64`.  The same holds for a well-formed full buffer of `2^63`
one-byte elements. -/
theorem push_back_claimed_growth_fails :
    sample_huge.1.size = sample_huge.1.capacity ∧
    (sample_huge.1.push_back 8 (Ref.object 1) sample_huge.2).2.log = sample_huge.2.log ∧
    (sample_huge.1.push_back 8 (Ref.object 1) sample_huge.2).1.capacity = 9223372036854775808 ∧
    append_capacity_spec sample_huge.1.capacity = 18446744073709551616 ∧
    ¬ ((if sample_huge.1.capacity = 0 then 2 else size_mul sample_huge.1.capacity 2)
        = append_capacity_spec sample_huge.1.capacity) ∧
    WF 1 (host_vector 1 9223372036854775808 1 false 0 sample_heap).1 ∧
    (host_vector 1 9223372036854775808 1 false 0 sample_heap).1.size
      = (host_vector 1 9223372036854775808 1 false 0 sample_heap).1.capacity ∧
    ((host_vector 1 9223372036854775808 1 false 0 sample_heap).1.push_back 1 (Ref.object 1)
        sample_heap).2.log = sample_heap.log ∧
    ((host_vector 1 9223372036854775808 1 false 0 sample_heap).1.push_back 1 (Ref.object 1)
        sample_heap).1.capacity = 9223372036854775808 := by
  have hn : 9223372036854775808 * 1 < SIZE_MOD := by decide
  have heq := constructor_eq 1 9223372036854775808 1 false 0 sample_heap (by decide) hn
    (by decide)
  have hsize : (host_vector 1 9223372036854775808 1 false 0 sample_heap).1._size
      = 9223372036854775808 := by rw [heq]
  have hcap : (host_vector 1 9223372036854775808 1 false 0 sample_heap).1._capacity
      = 9223372036854775808 := by rw [heq]
  obtain ⟨h1, h2⟩ := push_back_capacity_wrapped 1 (Ref.object (1 : Nat))
    (host_vector 1 9223372036854775808 1 false 0 sample_heap).1 sample_heap hsize hcap
  refine ⟨by decide, by decide, by decide, by decide, by decide, ?_, ?_, h2, h1⟩
  · rw [heq]
    exact ⟨List.length_replicate _ _, le_refl _, hn⟩
  · rw [size_eq_field, capacity_eq_field, hsize, hcap]

/-- C16 (witness): the full buffer `sample_one` of capacity 1 grows to capacity 2. -/
theorem push_back_growth_spec_witness :
    (sample_one.1._size = sample_one.1._capacity ∧ sample_one.1.capacity = 1) ∧
    (sample_one.1.push_back 8 (Ref.object 9) sample_one.2).1.capacity = 2 ∧
    (sample_one.1.push_back 8 (Ref.object 9) sample_one.2).1.capacity
      = append_capacity_spec sample_one.1.capacity :=
  ⟨⟨by decide, by decide⟩, by decide,
   ((push_back_growth_spec 8 (Ref.object 9) sample_one.1 sample_one.2 (by decide)).2.1 (by decide)).1⟩

/-- C17: `clear()` sets `size()` to 0 and `is_empty()` to true and leaves `capacity()`,
the region held with its contents, the resource, the stream and the accessibility flag
unchanged; as a statement of a program it leaves the heap, and so the log of calls to
the resources, unchanged. -/
theorem clear_spec [Zero T] (sz i : Nat) (v : cudf.detail.host_vector T) (s : Store T)
    (h : Heap T) :
    v.clear.size = 0 ∧ v.clear.is_empty = true ∧ v.clear.capacity = v.capacity ∧
    v.clear._data = v._data ∧ v.clear.data = v.data ∧ v.clear.cells = v.cells ∧
    v.clear.memory_resource = v.memory_resource ∧ v.clear.stream = v.stream ∧
    v.clear.is_device_accessible = v.is_device_accessible ∧
    (step sz (Cmd.clear i) (s, h)).2 = h ∧
    (s.live i = some v → (step sz (Cmd.clear i) (s, h)).1 = s.set i (some v.clear)) := by
  refine ⟨rfl, rfl, rfl, rfl, rfl, rfl, rfl, rfl, rfl, ?_, ?_⟩
  · simp only [step]
    cases s.live i <;> rfl
  · intro hl
    simp only [step, hl]

end cudf.detail.host_vector

/-! ## `cudf::table` -/

namespace cudf

theorem for_each_ok_iff {α : Type} (xs : List α) (f : α → Except String Unit) :
    for_each xs f = Except.ok () ↔ ∀ x ∈ xs, f x = Except.ok () := by
  induction xs with
  | nil => simp [for_each]
  | cons y ys ih =>
    unfold for_each
    cases hy : f y with
    | error e => simp [hy]
    | ok u => cases u; simp [ih, hy]

theorem for_each_error {α : Type} (xs : List α) (f : α → Except String Unit) (e : String)
    (he : for_each xs f = Except.error e) : ∃ x ∈ xs, f x = Except.error e := by
  induction xs with
  | nil => simp [for_each] at he
  | cons y ys ih =>
    unfold for_each at he
    cases hy : f y with
    | error e2 =>
      simp only [hy] at he
      exact ⟨y, List.mem_cons_self _ _, by rw [hy, he]⟩
    | ok u =>
      simp only [hy] at he
      obtain ⟨x, hx, hfx⟩ := ih he
      exact ⟨x, List.mem_cons_of_mem _ hx, hfx⟩

/-- The checks of the lambda in the constructor pass exactly on a non-null column of the
expected size. -/
theorem check_column_ok_iff (rows : Int) (col : Option gdf_column) :
    table.check_column rows col = Except.ok () ↔ ∃ c, col = some c ∧ c.size = rows := by
  unfold table.check_column
  cases col with
  | none => simp [CUDF_EXPECTS]
  | some c =>
    by_cases hr : rows = c.size
    · simp [CUDF_EXPECTS, gdf_column.size_of, hr]
    · have hr2 : ¬ c.size = rows := fun e => hr e.symm
      simp [CUDF_EXPECTS, gdf_column.size_of, hr, hr2]

theorem check_column_error (rows : Int) (col : Option gdf_column) (e : String)
    (he : table.check_column rows col = Except.error e) :
    e = "Null input column" ∨ e = "Column size mismatch" := by
  unfold table.check_column at he
  cases col with
  | none =>
    simp [CUDF_EXPECTS] at he
    exact Or.inl he.symm
  | some c =>
    by_cases hr : rows = c.size
    · simp [CUDF_EXPECTS, gdf_column.size_of, hr] at he
    · simp [CUDF_EXPECTS, gdf_column.size_of, hr] at he
      exact Or.inr he.symm

/-- The result of the constructor when the first pointer is not null. -/
theorem table_of_first (cols : Nat → Option gdf_column) (num_cols : Int) (c0 : gdf_column)
    (h0 : cols 0 = some c0) :
    table.table cols num_cols =
      (match for_each ((List.range num_cols.toNat).map cols) (table.check_column c0.size) with
       | Except.error e => Except.error e
       | Except.ok _ =>
         Except.ok { columns := cols, _num_columns := num_cols, _num_rows := c0.size }) := by
  unfold table.table
  rw [h0]
  rfl

theorem table_of_null_first (cols : Nat → Option gdf_column) (num_cols : Int)
    (h0 : cols 0 = none) : table.table cols num_cols = Except.error "Null input column" := by
  unfold table.table
  rw [h0]
  rfl

/-- C18: for `num_cols >= 1`, the constructor of `table` succeeds iff each of the
`num_cols` pointers is non-null and each column has the size of the first one; otherwise
it fails with `Null input column` or `Column size mismatch`; on success `num_columns()`
is `num_cols`, the table wraps the given array and `num_rows()` is the size of every
wrapped column. -/
theorem table_constructor_spec (cols : Nat → Option gdf_column) (num_cols : Int)
    (hn : 1 ≤ num_cols) :
    ((∃ t, table.table cols num_cols = Except.ok t) ↔
      ∀ i : Nat, (i : Int) < num_cols →
        ∃ c, cols i = some c ∧ c.size = gdf_column.size_of (cols 0)) ∧
    (∀ e, table.table cols num_cols = Except.error e →
      e = "Null input column" ∨ e = "Column size mismatch") ∧
    (∀ t, table.table cols num_cols = Except.ok t →
      t.num_columns = num_cols ∧ t.columns = cols ∧
      ∀ i : Nat, (i : Int) < num_cols → ∃ c, cols i = some c ∧ c.size = t.num_rows) := by
  have hmem : ∀ x, x ∈ (List.range num_cols.toNat).map cols ↔
      ∃ i : Nat, (i : Int) < num_cols ∧ cols i = x := by
    intro x
    simp only [List.mem_map, List.mem_range, Int.lt_toNat]
  cases h0 : cols 0 with
  | none =>
    rw [table_of_null_first cols num_cols h0]
    refine ⟨⟨fun hex => ?_, fun hall => ?_⟩, ?_, fun t ht => ?_⟩
    · obtain ⟨t, ht⟩ := hex
      cases ht
    · obtain ⟨c, hc, -⟩ := hall 0 (by omega)
      rw [h0] at hc
      cases hc
    · intro e he
      injection he with he
      exact Or.inl he.symm
    · cases ht
  | some c0 =>
    rw [table_of_first cols num_cols c0 h0]
    simp only [gdf_column.size_of]
    cases hf : for_each ((List.range num_cols.toNat).map cols) (table.check_column c0.size) with
    | error e =>
      obtain ⟨x, hx, hfx⟩ := for_each_error _ _ e hf
      refine ⟨⟨fun hex => ?_, fun hall => ?_⟩, ?_, fun t ht => ?_⟩
      · obtain ⟨t, ht⟩ := hex
        cases ht
      · obtain ⟨i, hi, hci⟩ := (hmem x).1 hx
        obtain ⟨c, hc, hsize⟩ := hall i hi
        have hok := (check_column_ok_iff c0.size x).2 ⟨c, by rw [← hci, hc], hsize⟩
        rw [hok] at hfx
        cases hfx
      · intro e2 he2
        injection he2 with he2
        rw [← he2]
        exact check_column_error c0.size x e hfx
      · cases ht
    | ok u =>
      cases u
      have hall := (for_each_ok_iff _ _).1 hf
      have hcols : ∀ i : Nat, (i : Int) < num_cols → ∃ c, cols i = some c ∧ c.size = c0.size := by
        intro i hi
        exact (check_column_ok_iff c0.size (cols i)).1 (hall _ ((hmem _).2 ⟨i, hi, rfl⟩))
      refine ⟨⟨fun _ => hcols, fun _ => ⟨_, rfl⟩⟩, fun e he => ?_, fun t ht => ?_⟩
      · cases he
      · injection ht with ht
        subst ht
        exact ⟨rfl, rfl, hcols⟩

/-- C18 (witness): two columns of three rows give a table of two columns and three rows;
a null second pointer and a second column of four rows give the two errors. -/
theorem table_constructor_spec_witness :
    (1 ≤ (2 : Int)) ∧
    (∃ t, table.table (column_array [some { size := 3 }, some { size := 3 }]) 2
        = Except.ok t ∧ t.num_columns = 2 ∧ t.num_rows = 3) ∧
    ((∃ t, table.table (column_array [some { size := 3 }, some { size := 3 }]) 2
        = Except.ok t) ↔
      ∀ i : Nat, (i : Int) < 2 →
        ∃ c, column_array [some { size := 3 }, some { size := 3 }] i = some c ∧
          c.size = gdf_column.size_of
            (column_array [some { size := 3 }, some { size := 3 }] 0)) ∧
    table.table (column_array [some { size := 3 }, none]) 2
      = Except.error "Null input column" ∧
    table.table (column_array [some { size := 3 }, some { size := 4 }]) 2
      = Except.error "Column size mismatch" :=
  ⟨by decide, ⟨_, rfl, rfl, rfl⟩,
   (table_constructor_spec (column_array [some { size := 3 }, some { size := 3 }]) 2
      (by decide)).1, rfl, rfl⟩

end cudf

/-! ## Resource, stream and accessibility flag of a buffer -/

namespace cudf.detail

variable {T : Type}

theorem host_vector.resize_frame [Zero T] (sz m : Nat) (v : cudf.detail.host_vector T)
    (h : Heap T) :
    (v.resize sz m h).1._mr = v._mr ∧ (v.resize sz m h).1._stream = v._stream ∧
    (v.resize sz m h).1._is_device_accessible = v._is_device_accessible := by
  unfold host_vector.resize
  by_cases hc : m > v._capacity
  · simp only [hc, if_true]
    cases hd : v._data <;> simp only [] <;> split_ifs <;> simp
  · simp only [hc, if_false]
    cases hd : v._data <;> simp only [] <;> split_ifs <;> simp [hd]

theorem host_vector.reserve_frame (sz c : Nat) (v : cudf.detail.host_vector T) (h : Heap T) :
    (v.reserve sz c h).1._mr = v._mr ∧ (v.reserve sz c h).1._stream = v._stream ∧
    (v.reserve sz c h).1._is_device_accessible = v._is_device_accessible := by
  unfold host_vector.reserve
  by_cases hc : c > v._capacity
  · simp only [hc, if_true]
    cases hd : v._data <;> simp
  · simp [hc]

theorem host_vector.push_back_frame (sz : Nat) (x : Ref T) (v : cudf.detail.host_vector T)
    (h : Heap T) :
    (v.push_back sz x h).1._mr = v._mr ∧ (v.push_back sz x h).1._stream = v._stream ∧
    (v.push_back sz x h).1._is_device_accessible = v._is_device_accessible := by
  obtain ⟨-, -, -, h1, h2, h3, -⟩ := host_vector.push_back_parts sz x v h _ rfl
  rw [h1, h2, h3]
  by_cases hfull : v._size = v._capacity
  · simp only [hfull, if_true]
    exact host_vector.reserve_frame sz _ v h
  · simp [hfull]

/-- The calls a reallocation makes are all on the resource and stream of the buffer. -/
theorem realloc_events_use (v : cudf.detail.host_vector T) (b1 b2 next : Nat) :
    ∀ e ∈ (match v._data with
        | some d => [Event.deallocate_async v._mr d.addr b1 v._stream]
        | none => []) ++
        [Event.synchronize v._stream, Event.allocate_async v._mr b2 v._stream next],
      e.uses v._mr v._stream = true := by
  intro e he
  cases hd : v._data with
  | none =>
    simp only [hd, List.nil_append, List.mem_cons, List.mem_singleton, List.not_mem_nil,
      or_false] at he
    rcases he with he | he <;> subst he <;> simp [Event.uses]
  | some d =>
    simp only [hd, List.singleton_append, List.mem_cons, List.mem_singleton,
      List.not_mem_nil, or_false] at he
    rcases he with he | he | he <;> subst he <;> simp [Event.uses]

theorem Store.live_append_lt (s : Store T) (o : Option (host_vector T)) (i : Nat)
    (hi : i < s.length) : Store.live (s ++ [o]) i = s.live i := by
  simp [Store.live, List.getElem?_append_left hi]

/-- A statement other than a move assignment into slot `i` leaves the resource, the
stream and the accessibility flag of the object in slot `i` unchanged. -/
theorem step_frame [Zero T] (sz : Nat) (cmd : Cmd T) (s : Store T) (h : Heap T) (i : Nat)
    (w w1 : host_vector T) (hl : s.live i = some w)
    (hl1 : Store.live (step sz cmd (s, h)).1 i = some w1)
    (hc : ∀ src, cmd ≠ Cmd.move_assign i src) :
    w1._mr = w._mr ∧ w1._stream = w._stream ∧
    w1._is_device_accessible = w._is_device_accessible := by
  have hi := Store.live_lt hl
  have same : s.live i = some w1 → w1._mr = w._mr ∧ w1._stream = w._stream ∧
      w1._is_device_accessible = w._is_device_accessible := by
    intro h2
    rw [hl] at h2
    cases h2
    exact ⟨rfl, rfl, rfl⟩
  have upd : ∀ (j : Nat) (u : host_vector T), Store.live (s.set j (some u)) i = some w1 →
      (j = i → u._mr = w._mr ∧ u._stream = w._stream ∧
        u._is_device_accessible = w._is_device_accessible) →
      w1._mr = w._mr ∧ w1._stream = w._stream ∧
        w1._is_device_accessible = w._is_device_accessible := by
    intro j u h2 hu
    by_cases hj : j = i
    · subst hj
      rw [Store.live_set_same _ _ _ hi] at h2
      cases h2
      exact hu rfl
    · rw [Store.live_set_ne _ _ _ _ hj] at h2
      exact same h2
  cases cmd with
  | construct n mr dev stream =>
    simp only [step] at hl1
    rw [Store.live_append_lt _ _ _ hi] at hl1
    exact same hl1
  | move_construct src ind =>
    simp only [step] at hl1
    cases hs : s.live src with
    | none => simp only [hs] at hl1; exact same hl1
    | some o =>
      simp only [hs, host_vector.host_vector_move] at hl1
      rw [Store.live_append_lt _ _ _ (by rw [List.length_set]; exact hi)] at hl1
      refine upd src _ hl1 (fun hj => ?_)
      subst hj
      rw [hl] at hs
      cases hs
      exact ⟨rfl, rfl, rfl⟩
  | move_assign dst src =>
    simp only [step] at hl1
    by_cases hne : dst ≠ src
    · rw [if_pos hne] at hl1
      cases hd : s.live dst with
      | none => simp only [hd] at hl1; exact same hl1
      | some a =>
        cases hs : s.live src with
        | none => simp only [hd, hs] at hl1; exact same hl1
        | some b =>
          simp only [hd, hs, host_vector.operator_assign] at hl1
          have hdi : dst ≠ i := by
            intro e
            subst e
            exact hc src rfl
          by_cases hsi : src = i
          · subst hsi
            rw [Store.live_set_same _ _ _ (by rw [List.length_set]; exact hi)] at hl1
            cases hl1
            rw [hl] at hs
            cases hs
            exact ⟨rfl, rfl, rfl⟩
          · rw [Store.live_set_ne _ _ _ _ hsi, Store.live_set_ne _ _ _ _ hdi] at hl1
            exact same hl1
    · rw [if_neg hne] at hl1
      exact same hl1
  | resize j m =>
    simp only [step] at hl1
    cases hs : s.live j with
    | none => simp only [hs] at hl1; exact same hl1
    | some u =>
      simp only [hs] at hl1
      refine upd j _ hl1 (fun hj => ?_)
      subst hj
      rw [hl] at hs
      cases hs
      exact host_vector.resize_frame sz m w h
  | reserve j c =>
    simp only [step] at hl1
    cases hs : s.live j with
    | none => simp only [hs] at hl1; exact same hl1
    | some u =>
      simp only [hs] at hl1
      refine upd j _ hl1 (fun hj => ?_)
      subst hj
      rw [hl] at hs
      cases hs
      exact host_vector.reserve_frame sz c w h
  | push_back j x =>
    simp only [step] at hl1
    cases hs : s.live j with
    | none => simp only [hs] at hl1; exact same hl1
    | some u =>
      simp only [hs] at hl1
      refine upd j _ hl1 (fun hj => ?_)
      subst hj
      rw [hl] at hs
      cases hs
      exact host_vector.push_back_frame sz x w h
  | clear j =>
    simp only [step] at hl1
    cases hs : s.live j with
    | none => simp only [hs] at hl1; exact same hl1
    | some u =>
      simp only [hs] at hl1
      refine upd j _ hl1 (fun hj => ?_)
      subst hj
      rw [hl] at hs
      cases hs
      exact ⟨rfl, rfl, rfl⟩
  | destroy j =>
    simp only [step] at hl1
    cases hs : s.live j with
    | none => simp only [hs] at hl1; exact same hl1
    | some u =>
      simp only [hs] at hl1
      by_cases hj : j = i
      · subst hj
        rw [Store.live_set_same _ _ _ hi] at hl1
        cases hl1
      · rw [Store.live_set_ne _ _ _ _ hj] at hl1
        exact same hl1

/-- C19: `resize`, `reserve`, `push_back` and `clear` leave `memory_resource()`,
`stream()` and `is_device_accessible()` of the buffer unchanged, and every call they add
to the log (allocation, release, synchronisation) is on the resource and stream the
buffer had before the call; for the object in a slot of a program, a statement changes
none of the three unless it is a move assignment into that slot. -/
theorem resource_and_stream_fixed [Zero T] (sz m c : Nat) (x : Ref T)
    (v : cudf.detail.host_vector T) (h : Heap T) :
    ((v.resize sz m h).1.memory_resource = v.memory_resource ∧
      (v.resize sz m h).1.stream = v.stream ∧
      (v.resize sz m h).1.is_device_accessible = v.is_device_accessible) ∧
    ((v.reserve sz c h).1.memory_resource = v.memory_resource ∧
      (v.reserve sz c h).1.stream = v.stream ∧
      (v.reserve sz c h).1.is_device_accessible = v.is_device_accessible) ∧
    ((v.push_back sz x h).1.memory_resource = v.memory_resource ∧
      (v.push_back sz x h).1.stream = v.stream ∧
      (v.push_back sz x h).1.is_device_accessible = v.is_device_accessible) ∧
    (v.clear.memory_resource = v.memory_resource ∧ v.clear.stream = v.stream ∧
      v.clear.is_device_accessible = v.is_device_accessible) ∧
    (∃ new, (v.resize sz m h).2.log = new ++ h.log ∧
      ∀ e ∈ new, e.uses v.memory_resource v.stream = true) ∧
    (∃ new, (v.reserve sz c h).2.log = new ++ h.log ∧
      ∀ e ∈ new, e.uses v.memory_resource v.stream = true) ∧
    (∃ new, (v.push_back sz x h).2.log = new ++ h.log ∧
      ∀ e ∈ new, e.uses v.memory_resource v.stream = true) ∧
    (∀ (s : Store T) (g : Heap T) (cmd : Cmd T) (i : Nat) (w w1 : host_vector T),
      s.live i = some w → Store.live (step sz cmd (s, g)).1 i = some w1 →
      (∀ src, cmd ≠ Cmd.move_assign i src) →
      w1.memory_resource = w.memory_resource ∧ w1.stream = w.stream ∧
      w1.is_device_accessible = w.is_device_accessible) := by
  have hres : ∃ new, (v.resize sz m h).2.log = new ++ h.log ∧
      ∀ e ∈ new, e.uses v._mr v._stream = true := by
    obtain ⟨-, hlg, -⟩ := host_vector.resize_effect sz m v h
    by_cases hc : m > v._capacity
    · simp only [hc, if_true] at hlg
      exact ⟨_, hlg, realloc_events_use v _ _ _⟩
    · simp only [hc, if_false] at hlg
      exact ⟨[], by rw [hlg]; rfl, fun e he => by cases he⟩
  have hrsv : ∀ c, ∃ new, (v.reserve sz c h).2.log = new ++ h.log ∧
      ∀ e ∈ new, e.uses v._mr v._stream = true := by
    intro c
    obtain ⟨-, hlg, -⟩ := host_vector.reserve_effect sz c v h
    by_cases hc : c > v._capacity
    · simp only [hc, if_true] at hlg
      exact ⟨_, hlg, realloc_events_use v _ _ _⟩
    · simp only [hc, if_false] at hlg
      exact ⟨[], by rw [hlg]; rfl, fun e he => by cases he⟩
  have hpb : ∃ new, (v.push_back sz x h).2.log = new ++ h.log ∧
      ∀ e ∈ new, e.uses v._mr v._stream = true := by
    obtain ⟨-, hlg, -⟩ := host_vector.push_back_effect sz x v h
    by_cases hfull : v._size = v._capacity
    · simp only [hfull, if_true] at hlg
      rw [hlg]
      exact hrsv _
    · simp only [hfull, if_false] at hlg
      exact ⟨[], by rw [hlg]; rfl, fun e he => by cases he⟩
  exact ⟨host_vector.resize_frame sz m v h, host_vector.reserve_frame sz c v h,
    host_vector.push_back_frame sz x v h, ⟨rfl, rfl, rfl⟩, hres, hrsv c, hpb,
    fun s g cmd i w w1 hl hl1 hc => step_frame sz cmd s g i w w1 hl hl1 hc⟩

/-! ## Byte counts of releases -/

/-- C20 (failing input): a buffer of three 4-byte elements is allocated with 12 bytes;
after `resize(1)` its destructor releases the region with `_size * sizeof(T) = 4` bytes.
With a `reserve(10)` before the destruction, the reallocation releases the first region
(12 bytes) with 4 bytes and the destructor releases the second one (40 bytes) with 4
bytes.  A buffer destroyed while `size() == capacity()` is released with the byte count
of its allocation. -/
theorem release_byte_count_mismatch :
    allocated_bytes (run 4 sample_shrink_program ([], sample_heap)).2.log = [(1, 12)] ∧
    released_bytes (run 4 sample_shrink_program ([], sample_heap)).2.log = [(1, 4)] ∧
    allocated_bytes (run 4 [Cmd.construct 3 1 false 0, Cmd.resize 0 1, Cmd.reserve 0 10,
        Cmd.destroy 0] ([], sample_heap)).2.log = [(2, 40), (1, 12)] ∧
    released_bytes (run 4 [Cmd.construct 3 1 false 0, Cmd.resize 0 1, Cmd.reserve 0 10,
        Cmd.destroy 0] ([], sample_heap)).2.log = [(2, 4), (1, 4)] ∧
    allocated_bytes (run 4 [Cmd.construct 3 1 false 0, Cmd.destroy 0]
        ([], sample_heap)).2.log = [(1, 12)] ∧
    released_bytes (run 4 [Cmd.construct 3 1 false 0, Cmd.destroy 0]
        ([], sample_heap)).2.log = [(1, 12)] := by
  refine ⟨by decide, by decide, by decide, by decide, by decide, by decide⟩

end cudf.detail

/-! ## The accessibility flag across a move -/

namespace cudf.detail

/-- C21 (evaluation): in `sample_pair` slot 1 holds a buffer A on the device accessible
resource 9 and slot 0 a buffer B on resource 1, which is not.  After `B = std::move(A)`
B owns the memory of resource 9 and `B.is_device_accessible()` is still `false`; an
object move-constructed from A holds the indeterminate value, here `false`, and not the
`true` of A. -/
theorem move_leaves_flag_behind :
    (Store.live sample_pair.1 1).map host_vector.is_device_accessible = some true ∧
    (Store.live sample_pair.1 1).map host_vector.memory_resource = some 9 ∧
    (Store.live sample_pair.1 0).map host_vector.is_device_accessible = some false ∧
    (Store.live (step 4 (Cmd.move_assign 0 1) sample_pair).1 0).map
      host_vector.memory_resource = some 9 ∧
    (Store.live (step 4 (Cmd.move_assign 0 1) sample_pair).1 0).map host_vector.data
      = (Store.live sample_pair.1 1).map host_vector.data ∧
    (Store.live (step 4 (Cmd.move_assign 0 1) sample_pair).1 0).map
      host_vector.is_device_accessible = some false ∧
    (Store.live (step 4 (Cmd.move_construct 1 false) sample_pair).1 2).map
      host_vector.memory_resource = some 9 ∧
    (Store.live (step 4 (Cmd.move_construct 1 false) sample_pair).1 2).map
      host_vector.is_device_accessible = some false := by
  decide

end cudf.detail

/-! ## Allocator selector on the true byte size -/

namespace cudf.detail

/-- C22 (amended): when the product `size * sizeof(T)` fits in `size_t`,
`get_host_allocator` selects the pinned resource exactly when the true byte size is at
most the threshold; a request whose true byte size exceeds the threshold gets the
pageable resource. -/
theorem get_host_allocator_unwrapped_spec (sz size stream threshold : Nat)
    (hno : size * sz < SIZE_MOD) :
    ((get_host_allocator sz size stream threshold).mr = host_memory_resource.pinned ↔
      size * sz ≤ threshold) ∧
    (threshold < size * sz →
      (get_host_allocator sz size stream threshold).mr = host_memory_resource.pageable) := by
  unfold get_host_allocator
  rw [size_mul_of_lt hno]
  constructor
  · split_ifs with hc <;> simp [hc]
  · intro hbig
    rw [if_neg (by omega)]

/-- C22 (witness): 1025 four-byte elements against a threshold of 4096 bytes. -/
theorem get_host_allocator_unwrapped_spec_witness :
    1025 * 4 < SIZE_MOD ∧
    (get_host_allocator 4 1025 0 4096).mr = host_memory_resource.pageable :=
  ⟨by decide, (get_host_allocator_unwrapped_spec 4 1025 0 4096 (by decide)).2 (by decide)⟩

/-- C22 (counterexample): `2^61` eight-byte elements are `2^64` bytes, above a threshold
of 4096 bytes, yet the `size_t` product is 0 and the pinned resource is selected; so is
it for `2^61 + 1` elements, whose product wraps to 8. -/
theorem pinned_selected_when_product_wraps :
    2305843009213693952 < SIZE_MOD ∧ 4096 < 2305843009213693952 * 8 ∧
    size_mul 2305843009213693952 8 = 0 ∧
    (get_host_allocator 8 2305843009213693952 0 4096).mr = host_memory_resource.pinned ∧
    size_mul 2305843009213693953 8 = 8 ∧
    (get_host_allocator 8 2305843009213693953 0 4096).mr = host_memory_resource.pinned := by
  decide

end cudf.detail

/-! ## Capacity after a run of appends -/

namespace cudf.detail

variable {T : Type}

end cudf.detail
